import Mathlib

/-! Verification of the USAW results-archive download pipeline.

A shallow embedding of the asset-resolution and link-rewriting pipeline of
the `usaw-results-archive` repository (the `runDownload` path of the final
`index.ts` iteration, together with its inline helpers `resolveUrl`,
`downloadAsset` and `fetchWayback`), with theorems settling the frozen
specification claims.

Conventions of the embedding:
* JavaScript strings are Lean `String`s; byte buffers are `String`s as well
  (only emptiness and equality of bodies matter to the verified code).
* The file system is an association list from path to content; the network
  is a function from request URL to an optional response (`none` models a
  transport error / a thrown `axios` rejection).
* `crypto.createHash("md5")...digest("hex")` is a parameter
  (`md5hex : String → String`); the facts the code relies on (32 lowercase
  hex characters) are hypotheses where needed, and concrete instantiations
  use an executable stand-in digest.
* `new URL` (WHATWG) is modelled for the `http(s)` subset the program
  exercises: scheme/host/port/path/query parsing, relative and
  root-relative resolution with dot-segment normalization, and default-port
  elision at parse time.

All string functions are re-implemented by structural recursion over
`List Char` so that every definition evaluates inside the kernel.
-/

set_option maxRecDepth 100000

namespace Usaw

/-! ## Basic string machinery (structurally recursive) -/

/-- Is `p` a prefix of `l`? -/
def listPref : List Char → List Char → Bool
  | [], _ => true
  | _ :: _, [] => false
  | a :: as, b :: bs => a == b && listPref as bs

/-- Does `p` occur as a contiguous sublist of `l`? -/
def listHasSub (p : List Char) : List Char → Bool
  | [] => listPref p []
  | l@(_ :: t) => listPref p l || listHasSub p t

/-- Model of JavaScript `String.prototype.startsWith`. -/
def strStarts (s pat : String) : Bool := listPref pat.data s.data

/-- Model of JavaScript `String.prototype.includes`. -/
def strContains (s pat : String) : Bool := listHasSub pat.data s.data

/-- Model of JavaScript `String.prototype.endsWith`. -/
def strEnds (s pat : String) : Bool := listPref pat.data.reverse s.data.reverse

/-- Split on a separator, fuel-recursive so the kernel can evaluate it.
Mirrors JavaScript `String.prototype.split` for a non-empty separator. -/
def splitAux (sep : List Char) : Nat → List Char → List Char → List (List Char)
  | _, [], acc => [acc.reverse]
  | 0, l, acc => [acc.reverse ++ l]
  | fuel + 1, c :: rest, acc =>
    if sep ≠ [] && listPref sep (c :: rest) then
      acc.reverse :: splitAux sep fuel ((c :: rest).drop sep.length) []
    else
      splitAux sep fuel rest (c :: acc)

/-- Model of JavaScript `s.split(sep)` (non-empty separator). -/
def strSplit (s sep : String) : List String :=
  (splitAux sep.data s.data.length s.data []).map List.asString

/-- Lowercase a string (ASCII is all the program meets). -/
def strLower (s : String) : String := (s.data.map Char.toLower).asString

/-- The characters after the last `/` of a string (the path basename). -/
def afterLastSep (l : List Char) : List Char :=
  l.foldl (fun acc c => if c = '/' then [] else acc ++ [c]) []

/-- Index of the last `.` in a character list, if any. -/
def lastDotIdx (l : List Char) : Option Nat :=
  (l.foldl (fun (p : Nat × Option Nat) c =>
    (p.1 + 1, if c = '.' then some p.1 else p.2)) (0, none)).2

/-- Model of Node `path.extname`: the extension (with leading dot) of the
basename of the path, empty for dotless names, leading-dot-only names and
`".."`. -/
def extname (p : String) : String :=
  let base := afterLastSep p.data
  if base = ['.', '.'] then ""
  else
    match lastDotIdx base with
    | none => ""
    | some 0 => ""
    | some i => (base.drop i).asString

/-- The decimal digit characters, split low/high. -/
def decDigitsLo : List Char := ['0', '1', '2', '3', '4']

/-- The high half of the decimal digit characters. -/
def decDigitsHi : List Char := ['5', '6', '7', '8', '9']

/-- The uppercase hex letter characters. -/
def hexLettersU : List Char := ['A', 'B', 'C', 'D', 'E', 'F']

/-- The lowercase hex letter characters. -/
def hexLettersL : List Char := ['a', 'b', 'c', 'd', 'e', 'f']

/-- Hexadecimal digit characters, uppercase (as `encodeURIComponent` emits). -/
def hexDigitU (n : Nat) : Char :=
  ((decDigitsLo ++ decDigitsHi ++ hexLettersU).getD n '0')

/-- Two-digit uppercase hex rendering of a byte. -/
def hexByte (n : Nat) : String :=
  ⟨[hexDigitU (n / 16 % 16), hexDigitU (n % 16)]⟩

/-- UTF-8 bytes of a code point. -/
def utf8Bytes (n : Nat) : List Nat :=
  if n < 0x80 then [n]
  else if n < 0x800 then [0xC0 + n / 64, 0x80 + n % 64]
  else if n < 0x10000 then [0xE0 + n / 4096, 0x80 + n / 64 % 64, 0x80 + n % 64]
  else [0xF0 + n / 262144, 0x80 + n / 4096 % 64, 0x80 + n / 64 % 64, 0x80 + n % 64]

/-- Characters that JavaScript `encodeURIComponent` leaves unescaped. -/
def uriUnreserved (c : Char) : Bool :=
  c.isAlphanum || c ∈ ['-', '_', '.', '!', '~', '*', '(', ')'] || c = Char.ofNat 39

/-- Model of JavaScript `encodeURIComponent`. -/
def encodeURIComponent (s : String) : String :=
  s.data.foldl (fun acc c =>
    if uriUnreserved c then acc ++ ⟨[c]⟩
    else acc ++ ((utf8Bytes c.toNat).map hexByte).foldl (fun a b => a ++ "%" ++ b) "") ""

/-- Parse a decimal port. `none` for empty or non-numeric input. -/
def parsePort (l : List Char) : Option Nat :=
  if l ≠ [] && l.all Char.isDigit then
    some (l.foldl (fun a c => a * 10 + (c.toNat - 48)) 0)
  else none

/-! ## The WHATWG URL model (http/https subset)

The program manipulates URLs through `new URL(...)` only on `http:` and
`https:` addresses (everything else is filtered out before, or caught).
The model covers: scheme and host lowercasing, optional port with
default-port elision at parse time (the WHATWG parser sets the port to
null when it equals the scheme default, so `url.port` is `""` for
`http://h:80/`), path splitting with dot-segment normalization, query and
fragment components, and relative/root-relative resolution against a base.
Userinfo is not modelled (never present in the repository's data). -/

structure UrlRec where
  scheme : String
  host : String
  port : Option Nat
  path : List String
  query : Option String
  fragment : Option String
  deriving DecidableEq, Repr

/-- Default port of a scheme. -/
def defaultPort (scheme : String) : Option Nat :=
  if scheme = "http" then some 80 else if scheme = "https" then some 443 else none

/-- WHATWG path normalization: `.` segments vanish, `..` pops, and a final
dot segment leaves a trailing empty segment (trailing slash). -/
def normSegs : List String → List String → List String
  | acc, [] => acc
  | acc, [s] =>
    if s = "." then acc ++ [""]
    else if s = ".." then acc.dropLast ++ [""]
    else acc ++ [s]
  | acc, s :: rest =>
    if s = "." then normSegs acc rest
    else if s = ".." then normSegs acc.dropLast rest
    else normSegs (acc ++ [s]) rest

/-- Split a path string (no leading slash expected) into raw segments. -/
def rawSegs (s : String) : List String := strSplit s "/"

/-- Split `s` at the first occurrence of `#` into (before, fragment?). -/
def splitFragment (s : String) : String × Option String :=
  match strSplit s "#" with
  | [] => (s, none)
  | [a] => (a, none)
  | a :: rest => (a, some (String.intercalate "#" rest))

/-- Split `s` at the first occurrence of `?` into (before, query?). -/
def splitQuery (s : String) : String × Option String :=
  match strSplit s "?" with
  | [] => (s, none)
  | [a] => (a, none)
  | a :: rest => (a, some (String.intercalate "?" rest))

/-- Parse `host[:port]`, eliding the scheme's default port as the WHATWG
parser does. Fails on an invalid or out-of-range port. -/
def parseAuthority (scheme : String) (auth : String) : Option (String × Option Nat) :=
  match strSplit auth ":" with
  | [h] => if h = "" then none else some (strLower h, none)
  | [h, p] =>
    if h = "" then none
    else if p = "" then some (strLower h, none)
    else
      match parsePort p.data with
      | none => none
      | some n =>
        if n > 65535 then none
        else if defaultPort scheme = some n then some (strLower h, none)
        else some (strLower h, some n)
  | _ => none

/-- Parse an absolute `http(s)` URL. `none` models the `new URL` constructor
throwing. -/
def parseUrl (s : String) : Option UrlRec :=
  match strSplit s "://" with
  | sch :: rest0 :: rest =>
    let scheme := strLower sch
    if scheme ≠ "http" ∧ scheme ≠ "https" then none
    else
      let tail := String.intercalate "://" (rest0 :: rest)
      let (beforeFrag, frag) := splitFragment tail
      let (beforeQuery, query) := splitQuery beforeFrag
      match rawSegs beforeQuery with
      | [] => none
      | auth :: segs =>
        match parseAuthority scheme auth with
        | none => none
        | some (host, port) =>
          some ⟨scheme, host, port, normSegs [] segs, query, frag⟩
  | _ => none

/-- The `url.port` getter: `""` when the port is elided. -/
def portString (u : UrlRec) : String :=
  match u.port with
  | none => ""
  | some n => toString n

/-- Setting `u.port = ""`. -/
def clearPort (u : UrlRec) : UrlRec := { u with port := none }

/-- WHATWG serialization (`url.toString()` / `url.href`). -/
def urlToString (u : UrlRec) : String :=
  u.scheme ++ "://" ++ u.host ++
  (match u.port with
   | none => ""
   | some n => ":" ++ toString n) ++
  (if u.path = [] then "/" else u.path.foldl (fun acc s => acc ++ "/" ++ s) "") ++
  (match u.query with
   | none => ""
   | some q => "?" ++ q) ++
  (match u.fragment with
   | none => ""
   | some f => "#" ++ f)

/-- Resolve a (possibly relative) reference `rel` against an absolute base,
per the WHATWG basic URL parser for special schemes. `none` models a
thrown constructor error. -/
def urlResolve (rel : String) (base : String) : Option UrlRec :=
  if strContains rel "://" then parseUrl rel
  else
    match parseUrl base with
    | none => none
    | some b =>
      if strStarts rel "//" then
        parseUrl (b.scheme ++ ":" ++ rel)
      else
        let (beforeFrag, frag) := splitFragment rel
        let (pathPart, query) := splitQuery beforeFrag
        if pathPart = "" then
          match query with
          | some _ => some { b with query := query, fragment := frag }
          | none =>
            match frag with
            | some _ => some { b with fragment := frag }
            | none => some { b with fragment := none }
        else if strStarts pathPart "/" then
          some { b with
                 path := normSegs [] (rawSegs (pathPart.drop 1))
                 query := query
                 fragment := frag }
        else
          some { b with
                 path := normSegs [] (b.path.dropLast ++ rawSegs pathPart)
                 query := query
                 fragment := frag }

/-! ## Effects model: file system and network -/

/-- The on-disk store: association list from path to file content, newest
entry first (`fsWrite` shadows). -/
abbrev FS := List (String × String)

/-- Read a file, `none` when absent. -/
def fsLookup (fs : FS) (p : String) : Option String :=
  match fs with
  | [] => none
  | (q, v) :: rest => if q = p then some v else fsLookup rest p

/-- Write (create or overwrite) a file. -/
def fsWrite (fs : FS) (p v : String) : FS := (p, v) :: fs

/-- An HTTP response as the asset fetches see it: status, `location` header,
`content-type` header and body bytes. -/
structure HttpResp where
  status : Nat
  location : Option String
  contentType : String
  body : String
  deriving DecidableEq, Repr

/-- The asset-fetch network: `none` is a transport error (a rejected
`axios` promise). -/
abbrev Net := String → Option HttpResp

/-- The CDX-lookup network: status and parsed JSON rows; `none` is a
transport error. (The CDX request uses `validateStatus: () => true`, so a
non-200 status does not throw.) -/
abbrev CdxNet := String → Option (Nat × List (List String))

/-! ## The embedded pipeline (from the final `index.ts`, `runDownload`) -/

/-- Per-item context handed to the inline asset helpers: the digest
function, the two networks, and the closed-over `item` fields. -/
structure ACtx where
  md5hex : String → String
  assetNet : Net
  cdxNet : CdxNet
  itemTimestamp : String
  itemOriginalUrl : String

/-- `resolveUrl` (the inline helper): empty strings map to `""`, strings
starting with `http` are returned as-is, anything else is resolved with
`new URL(rel, item.originalUrl)` followed by the (dead, see
`port_strip_condition_is_dead`) default-port strip, serialized; a thrown
constructor error returns the input unchanged. -/
def resolveUrl (originalUrl rel : String) : String :=
  if rel = "" then ""
  else if strStarts rel "http" then rel
  else
    match urlResolve rel originalUrl with
    | none => rel
    | some u =>
      let u' := if (u.scheme = "http" ∧ portString u = "80") ∨
                   (u.scheme = "https" ∧ portString u = "443")
                then clearPort u else u
      urlToString u'

/-- The "double check" at the top of `downloadAsset`: parse the raw URL and
strip a default port when the getter reports one (it never does, since the
WHATWG parser elides default ports: the branch is dead and the input comes
back unchanged whenever it parses). A parse failure leaves the input
unchanged. -/
def cleanUrlOf (url : String) : String :=
  match parseUrl url with
  | none => url
  | some u =>
    if (u.scheme = "http" ∧ portString u = "80") ∨
       (u.scheme = "https" ∧ portString u = "443")
    then urlToString (clearPort u) else url

/-- Step 1 of `downloadAsset`: the absolute form of the (cleaned)
reference. -/
def canonicalAbsUrl (originalUrl url : String) : String :=
  let c := cleanUrlOf url
  if strStarts c "http" then c else resolveUrl originalUrl c

/-- Step 2 of `downloadAsset`: the Wayback address the asset is fetched
from — the absolute URL itself when it already mentions the archive host,
otherwise the timestamped `id_`/`im_` prefix plus the absolute URL. -/
def waybackUrlOf (ts originalUrl url : String) (isImage : Bool) : String :=
  let a := canonicalAbsUrl originalUrl url
  if strContains a "web.archive.org" then a
  else
    (if isImage then "http://web.archive.org/web/" ++ ts ++ "im_"
     else "http://web.archive.org/web/" ++ ts ++ "id_") ++ "/" ++ a

/-- Extension rule of the asset store: `path.extname` of the query-stripped
cleaned URL, with a kind default when empty, demoted to the default again
when longer than 5 characters. -/
def extFromUrl (cleanUrl : String) (isImage : Bool) : String :=
  let ext0 := extname ((strSplit cleanUrl "?").headD "")
  let ext := if ext0 = "" then (if isImage then ".jpg" else ".css") else ext0
  if ext.length > 5 then (if isImage then ".jpg" else ".css") else ext

/-- The content-addressed local filename:
`md5hex(waybackAddress) ++ extension`. -/
def localFilenameOf (md5 : String → String) (ts originalUrl url : String)
    (isImage : Bool) : String :=
  md5 (waybackUrlOf ts originalUrl url isImage) ++ extFromUrl (cleanUrlOf url) isImage

/-- Destination path inside the era's shared asset directory. -/
def localPathOf (md5 : String → String) (ts originalUrl assetsDir url : String)
    (isImage : Bool) : String :=
  assetsDir ++ "/" ++ localFilenameOf md5 ts originalUrl url isImage

/-- The timestamp the redirect rewrite re-uses: the `\d{14}` stamp of the
current `/web/{ts}id_/` address when present (first regex match), else the
item timestamp. -/
def extractTsAux : List Char → Option String
  | [] => none
  | c :: rest =>
    if listPref "/web/".data (c :: rest) then
      let after := (c :: rest).drop 5
      let ts := after.take 14
      if ts.length = 14 ∧ ts.all Char.isDigit ∧
         listPref "id_/".data (after.drop 14)
      then some ts.asString
      else extractTsAux rest
    else extractTsAux rest

/-- First match of `/\/web\/(\d{14})id_\//` in a URL. -/
def extractTs (url : String) : Option String := extractTsAux url.data

/-- Redirect-target resolution for a relative `location` header: resolve it
against the original-URL part of the current Wayback address
(`url.split("id_/")[1]`), falling back to the raw location. -/
def redirectTarget (url loc : String) : String :=
  if strStarts loc "http" then loc
  else
    match (strSplit url "id_/").get? 1 with
    | none => loc
    | some baseUrl =>
      if baseUrl = "" then loc
      else
        match urlResolve loc baseUrl with
        | none => loc
        | some u => urlToString u

/-- The archived address a live redirect target is rewritten to, keeping
the current snapshot timestamp. -/
def waybackRewrite (itemTs url loc : String) : String :=
  "http://web.archive.org/web/" ++ ((extractTs url).getD itemTs) ++ "id_/" ++
    redirectTarget url loc

/-- How one response step of `fetchWayback` is dispatched. -/
inductive StepRes
  | thrown
  | settled (r : Option HttpResp)
  | follow (next : String)
  deriving DecidableEq, Repr

/-- One `axios` round of `fetchWayback` (`maxRedirects: 0`,
`validateStatus: status < 400`): a transport error or a status of 400 and
above throws; a redirect without a location settles to the `null` return;
an archive-internal redirect target is followed as-is and a live one is
followed through the archived rewrite; anything else settles to the
response. -/
def fetchStep (itemTs url : String) : Option HttpResp → StepRes
  | none => StepRes.thrown
  | some res =>
    if res.status ≥ 400 then StepRes.thrown
    else if res.status ≥ 300 then
      match res.location with
      | none => StepRes.settled none
      | some loc =>
        if strContains loc "web.archive.org/web/" then StepRes.follow loc
        else StepRes.follow (waybackRewrite itemTs url loc)
    else StepRes.settled (some res)

/-- `fetchWayback`: follow redirects per `fetchStep`, bounded by the retry
count (the recursion of the source, with the remaining-retry parameter).
Result: `none` models a thrown error, `some none` the `null` dead-end
return, `some (some r)` a response; the second component is the list of
URLs actually requested, in order. -/
def fetchWayback (net : Net) (itemTs : String) :
    String → Nat → Option (Option HttpResp) × List String
  | url, 0 =>
    match fetchStep itemTs url (net url) with
    | StepRes.thrown => (none, [url])
    | StepRes.settled r => (some r, [url])
    | StepRes.follow _ => (some none, [url])
  | url, r + 1 =>
    match fetchStep itemTs url (net url) with
    | StepRes.thrown => (none, [url])
    | StepRes.settled r => (some r, [url])
    | StepRes.follow next =>
      ((fetchWayback net itemTs next r).1, url :: (fetchWayback net itemTs next r).2)

/-- Result of one `downloadAsset` call: the returned local link (`none` is
the JavaScript `null`), the file system afterwards, and the network
requests issued (asset fetches and CDX lookups, in order). -/
structure DAResult where
  link : Option String
  fs : FS
  reqs : List String
  deriving DecidableEq, Repr

/-- Did the primary fetch fail or come back 200-with-empty-body? (The CDX
fallback trigger.) -/
def respFailedOrEmpty : Option HttpResp → Bool
  | none => true
  | some r => r.status == 200 && r.body == ""

/-- The original (non-archive) URL the CDX fallback looks up. -/
def cdxOriginalUrl (cleanUrl absUrl : String) : String :=
  let o0 := if strStarts cleanUrl "http" then cleanUrl else absUrl
  if strContains o0 "/http" then
    let s := ((strSplit o0 "/http").get? 1).getD ""
    if strStarts s "http" then s else "http" ++ s
  else o0

/-- The CDX closest-snapshot request address (source line: no
`filter=statuscode:200` parameter is sent). -/
def cdxUrlOf (originalUrl ts : String) : String :=
  "http://web.archive.org/cdx/search/cdx?url=" ++ encodeURIComponent originalUrl ++
    "&output=json&limit=1&closest=" ++ ts

/-- Final write gate: store the body only on a 200 with non-empty bytes and
return the bare local filename; otherwise return `null` and leave the file
system alone. -/
def writeResult (fs : FS) (lp lf : String) (resp : Option HttpResp)
    (log : List String) : DAResult :=
  match resp with
  | some r =>
    if r.status = 200 ∧ r.body ≠ "" then ⟨some lf, fsWrite fs lp r.body, log⟩
    else ⟨none, fs, log⟩
  | none => ⟨none, fs, log⟩

/-- The fetch branch of `downloadAsset` (destination absent or empty):
primary Wayback fetch, CDX closest-snapshot fallback, then the write
gate. -/
def fetchAndStore (ctx : ACtx) (fs : FS) (url : String) (isImage : Bool)
    (lf lp : String) : DAResult :=
  let wb := waybackUrlOf ctx.itemTimestamp ctx.itemOriginalUrl url isImage
  let (r1, log1) := fetchWayback ctx.assetNet ctx.itemTimestamp wb 3
  let resp1 : Option HttpResp := r1.getD none
  if respFailedOrEmpty resp1 then
    let originalUrl := cdxOriginalUrl (cleanUrlOf url)
      (canonicalAbsUrl ctx.itemOriginalUrl url)
    let ts := if ctx.itemTimestamp ≠ "" then ctx.itemTimestamp else "20060101"
    let cdxUrl := cdxUrlOf originalUrl ts
    match ctx.cdxNet cdxUrl with
    | none => writeResult fs lp lf resp1 (log1 ++ [cdxUrl])
    | some (st, rows) =>
      if st = 200 ∧ rows.length > 1 then
        let ts2 := (((rows.get? 1).getD []).get? 1).getD ""
        let direct := "http://web.archive.org/web/" ++ ts2 ++ "id_/" ++ originalUrl
        let (r2, log2) := fetchWayback ctx.assetNet ctx.itemTimestamp direct 3
        let resp2 : Option HttpResp :=
          match r2 with
          | none => resp1
          | some o => o
        writeResult fs lp lf resp2 (log1 ++ cdxUrl :: log2)
      else writeResult fs lp lf resp1 (log1 ++ [cdxUrl])
  else writeResult fs lp lf resp1 log1

/-- The inline `downloadAsset` helper: empty URLs return `null`; when the
hashed destination already exists with non-empty content the fetch is
skipped and the relative link into the asset directory is returned;
otherwise the asset is fetched and stored. -/
def downloadAsset (ctx : ACtx) (assetsDir : String) (fs : FS) (url : String)
    (isImage : Bool) : DAResult :=
  if url = "" then ⟨none, fs, []⟩
  else
    match fsLookup fs (assetsDir ++ "/" ++
      localFilenameOf ctx.md5hex ctx.itemTimestamp ctx.itemOriginalUrl url isImage) with
    | some c =>
      if c = "" then
        fetchAndStore ctx fs url isImage
          (localFilenameOf ctx.md5hex ctx.itemTimestamp ctx.itemOriginalUrl url isImage)
          (assetsDir ++ "/" ++
            localFilenameOf ctx.md5hex ctx.itemTimestamp ctx.itemOriginalUrl url isImage)
      else
        ⟨some ("../../assets/" ++
          localFilenameOf ctx.md5hex ctx.itemTimestamp ctx.itemOriginalUrl url isImage),
         fs, []⟩
    | none =>
      fetchAndStore ctx fs url isImage
        (localFilenameOf ctx.md5hex ctx.itemTimestamp ctx.itemOriginalUrl url isImage)
        (assetsDir ++ "/" ++
          localFilenameOf ctx.md5hex ctx.itemTimestamp ctx.itemOriginalUrl url isImage)

/-! ## The document rewriter (cheerio phases 1–3) -/

/-- The element kinds the collection phase distinguishes. -/
inductive Tag
  | img
  | link
  | script
  | other
  deriving DecidableEq, Repr

/-- A parsed document element with the attributes the rewriter reads
(`attr(...)` returning `none` models a missing attribute). -/
structure Elem where
  tag : Tag
  src : Option String := none
  href : Option String := none
  rel : Option String := none
  typeAttr : Option String := none
  deriving DecidableEq, Repr

instance : Inhabited Elem := ⟨⟨Tag.other, none, none, none, none⟩⟩

/-- A parsed document: its element sequence in document order. -/
abbrev Doc := List Elem

/-- One collected reference site: element index, raw reference string,
image flag, and which attribute to rewrite (`true` = `src`). -/
structure Site where
  idx : Nat
  url : String
  isImage : Bool
  attrIsSrc : Bool
  deriving DecidableEq, Repr

/-- The guard applied to every candidate reference string: present,
non-empty (JavaScript truthiness) and not starting with `data:`, `#` or
`..`. -/
def refGuard (s : String) : Bool :=
  s ≠ "" && !strStarts s "data:" && !strStarts s "#" && !strStarts s ".."

/-- Phase 1a: collect `img` sources. -/
def collectImgs (doc : Doc) : List Site :=
  doc.enum.filterMap fun p =>
    match p.2.tag, p.2.src with
    | Tag.img, some s => if refGuard s then some ⟨p.1, s, true, true⟩ else none
    | _, _ => none

/-- Is a `link` element a stylesheet? Identified by relation or MIME type,
not tag name alone. -/
def isStylesheet (e : Elem) : Bool :=
  (match e.rel with
   | some r => r ≠ "" && strContains (strLower r) "stylesheet"
   | none => false) ||
  (match e.typeAttr with
   | some t => t ≠ "" && strLower t == "text/css"
   | none => false)

/-- Phase 1b: collect stylesheet `link` hrefs. -/
def collectLinks (doc : Doc) : List Site :=
  doc.enum.filterMap fun p =>
    match p.2.tag, p.2.href with
    | Tag.link, some h =>
      if isStylesheet p.2 && refGuard h then some ⟨p.1, h, false, false⟩ else none
    | _, _ => none

/-- Phase 1c: collect `script[src]` sources. -/
def collectScripts (doc : Doc) : List Site :=
  doc.enum.filterMap fun p =>
    match p.2.tag, p.2.src with
    | Tag.script, some s => if refGuard s then some ⟨p.1, s, false, true⟩ else none
    | _, _ => none

/-- Phase 1: all collected reference sites, in collection order (all
images, then all stylesheets, then all scripts). -/
def collectAssets (doc : Doc) : List Site :=
  collectImgs doc ++ collectLinks doc ++ collectScripts doc

/-- Phase 2: one `downloadAsset` call per collected site (the sequential
denotation of the `Promise.all` over `assetsToProcess.map`), threading the
file system and concatenating request logs. -/
def processAssets (ctx : ACtx) (assetsDir : String) :
    FS → List Site → List (Site × Option String) × FS × List String
  | fs, [] => ([], fs, [])
  | fs, s :: rest =>
    let r := downloadAsset ctx assetsDir fs s.url s.isImage
    let (rs, fs', reqs) := processAssets ctx assetsDir r.fs rest
    ((s, r.link) :: rs, fs', r.reqs ++ reqs)

/-- Write one attribute of one element. -/
def setAttr (e : Elem) (attrIsSrc : Bool) (v : String) : Elem :=
  if attrIsSrc then { e with src := some v } else { e with href := some v }

/-- Phase 3: apply every successful rewrite back onto the document
(truthy local links only). -/
def applyRewrites (doc : Doc) : List (Site × Option String) → Doc
  | [] => doc
  | (s, link) :: rest =>
    match link with
    | some l =>
      if l ≠ "" then
        applyRewrites (doc.set s.idx (setAttr (doc.getD s.idx default) s.attrIsSrc l)) rest
      else applyRewrites doc rest
    | none => applyRewrites doc rest

/-- The whole per-document asset pass: collect, resolve/fetch, rewrite. -/
def processHtmlDoc (ctx : ACtx) (assetsDir : String) (fs : FS) (doc : Doc) :
    Doc × FS × List String :=
  let sites := collectAssets doc
  let (rs, fs', reqs) := processAssets ctx assetsDir fs sites
  (applyRewrites doc rs, fs', reqs)

/-! ## The orchestrator (`runDownload`) -/

/-- Inventory item status. -/
inductive Status
  | discovered
  | downloaded
  | failed
  | skipped
  deriving DecidableEq, Repr

/-- A `DocumentRecord` of the inventory. -/
structure Item where
  era : String
  year : String
  category : String
  filename : String
  originalUrl : String
  waybackUrl : String
  timestamp : String
  status : Status
  localPath : Option String := none
  deriving DecidableEq, Repr

/-- `CONFIG.DATA_DIR`. -/
def dataDir : String := "./data"

/-- The document target path `data/{era}/{year}/{category}/{filename}`. -/
def targetPathOf (it : Item) : String :=
  dataDir ++ "/" ++ it.era ++ "/" ++ it.year ++ "/" ++ it.category ++ "/" ++ it.filename

/-- The era's shared asset directory `data/{era}/assets`. -/
def assetsDirOf (it : Item) : String := dataDir ++ "/" ++ it.era ++ "/assets"

/-- Run-wide context: digest, the three networks (the main-document fetch
is modelled as returning the parsed document). -/
structure RCtx where
  md5hex : String → String
  assetNet : Net
  cdxNet : CdxNet
  mainNet : String → Option Doc

/-- The asset-helper context closed over one item. -/
def mkACtx (ctx : RCtx) (it : Item) : ACtx :=
  ⟨ctx.md5hex, ctx.assetNet, ctx.cdxNet, it.timestamp, it.originalUrl⟩

/-- The world the orchestrator mutates: the document files and the shared
asset store. -/
structure World where
  docs : List (String × Doc)
  assets : FS
  deriving DecidableEq, Repr

/-- Read a stored document. -/
def docsLookup (ds : List (String × Doc)) (p : String) : Option Doc :=
  match ds with
  | [] => none
  | (q, v) :: rest => if q = p then some v else docsLookup rest p

/-- Store a document. -/
def docsWrite (ds : List (String × Doc)) (p : String) (d : Doc) :
    List (String × Doc) := (p, d) :: ds

/-- The `.html` post-processing step applied to the file at `targetPath`. -/
def postProcess (ctx : RCtx) (it : Item) (w : World) (targetPath : String) :
    World × List String :=
  if strEnds targetPath ".html" then
    match docsLookup w.docs targetPath with
    | some doc =>
      let (doc', assets', reqs) :=
        processHtmlDoc (mkACtx ctx it) (assetsDirOf it) w.assets doc
      (⟨docsWrite w.docs targetPath doc', assets'⟩, reqs)
    | none => (w, [])
  else (w, [])

/-- Process one inventory item: skip the main fetch when the target file
already exists, otherwise fetch and write it (a transport failure marks
the item `failed`); post-process HTML; mark `downloaded`. -/
def processItem (ctx : RCtx) (w : World) (it : Item) :
    Item × World × List String :=
  let targetPath := targetPathOf it
  match docsLookup w.docs targetPath with
  | some _ =>
    let (w', reqs) := postProcess ctx it w targetPath
    ({ it with status := Status.downloaded, localPath := some targetPath }, w', reqs)
  | none =>
    match ctx.mainNet it.waybackUrl with
    | none => ({ it with status := Status.failed }, w, [it.waybackUrl])
    | some doc0 =>
      let w1 : World := ⟨docsWrite w.docs targetPath doc0, w.assets⟩
      let (w', reqs) := postProcess ctx it w1 targetPath
      ({ it with status := Status.downloaded, localPath := some targetPath },
       w', it.waybackUrl :: reqs)

/-- The download run over the inventory: items whose status is
`discovered` or `failed` are processed in order (the sequential denotation
of the batched `Promise.all`); everything else is left untouched. -/
def runDownloadModel (ctx : RCtx) : World → List Item →
    List Item × World × List String
  | w, [] => ([], w, [])
  | w, it :: rest =>
    if it.status = Status.discovered ∨ it.status = Status.failed then
      let (it', w', reqs) := processItem ctx w it
      let (rest', w'', reqs') := runDownloadModel ctx w' rest
      (it' :: rest', w'', reqs ++ reqs')
    else
      let (rest', w', reqs') := runDownloadModel ctx w rest
      (it :: rest', w', reqs')

/-! ## An executable stand-in digest

Concrete instantiations of the pipeline need an executable `md5hex`. The
stand-in below shares the properties the code relies on — a fixed-width
32-character lowercase-hex digest of the full string — and the concrete
theorems only depend on those properties plus inequality of specific
digests, which is checked by evaluation. -/

/-- Lowercase hex digit. -/
def hexDigitL (n : Nat) : Char :=
  ((decDigitsLo ++ decDigitsHi ++ hexLettersL).getD n '0')

/-- A 64-bit polynomial accumulator over the string's code points. -/
def digestSeed (s : String) : Nat :=
  s.data.foldl (fun a c => (a * 131 + c.toNat) % (2 ^ 64)) 7

/-- The stand-in digest: 32 lowercase hex characters. -/
def md5Std (s : String) : String :=
  (((List.range 32).map fun i => hexDigitL (digestSeed s / 16 ^ i % 16))).asString

/-! ## Supporting lemmas about the string machinery -/

theorem str_data_append : ∀ a b : String, (a ++ b).data = a.data ++ b.data
  | ⟨_⟩, ⟨_⟩ => rfl

theorem listPref_append_self : ∀ p q : List Char, listPref p (p ++ q) = true
  | [], _ => rfl
  | a :: as, q => by
    simp only [List.cons_append, listPref, beq_self_eq_true, Bool.true_and]
    exact listPref_append_self as q

theorem listHasSub_of_listPref {p l : List Char} (h : listPref p l = true) :
    listHasSub p l = true := by
  cases l with
  | nil => cases p with
    | nil => rfl
    | cons a as => simp [listPref] at h
  | cons c t => simp [listHasSub, h]

theorem listHasSub_cons {p l : List Char} (c : Char) (h : listHasSub p l = true) :
    listHasSub p (c :: l) = true := by
  simp [listHasSub, h]

/-- Every address the live-redirect rewrite constructs carries the archive
marker: it begins with the literal archived-URL prefix. -/
theorem waybackRewrite_has_marker (itemTs url loc : String) :
    strContains (waybackRewrite itemTs url loc) "web.archive.org/web/" = true := by
  have hdata : (waybackRewrite itemTs url loc).data =
      "http://".data ++ ("web.archive.org/web/".data ++
        (((extractTs url).getD itemTs) ++ "id_/" ++ redirectTarget url loc).data) := by
    show ((("http://web.archive.org/web/" ++ ((extractTs url).getD itemTs)) ++ "id_/") ++
        redirectTarget url loc).data = _
    simp only [str_data_append, List.append_assoc]
    rfl
  have hsub : listHasSub "web.archive.org/web/".data
      ("web.archive.org/web/".data ++
        (((extractTs url).getD itemTs) ++ "id_/" ++ redirectTarget url loc).data) = true :=
    listHasSub_of_listPref (listPref_append_self _ _)
  show listHasSub "web.archive.org/web/".data (waybackRewrite itemTs url loc).data = true
  rw [hdata]
  show listHasSub _ ('h' :: 't' :: 't' :: 'p' :: ':' :: '/' :: '/' ::
    ("web.archive.org/web/".data ++ _)) = true
  exact listHasSub_cons _ (listHasSub_cons _ (listHasSub_cons _ (listHasSub_cons _
    (listHasSub_cons _ (listHasSub_cons _ (listHasSub_cons _ hsub))))))

/-! ## Demonstration instances (concrete pipeline runs) -/

/-- A concrete inventory item: an HTML page of the msbn era referencing one
image. -/
def demoItem : Item where
  era := "msbn"
  year := "2005"
  category := "uncategorized"
  filename := "bar.html"
  originalUrl := "http://site.org/foo/bar.html"
  waybackUrl := "http://web.archive.org/web/20050504120000id_/http://site.org/foo/bar.html"
  timestamp := "20050504120000"
  status := Status.discovered

/-- A concrete run context: the archive serves the main document and any
image-mode asset fetch of the correct snapshot, and the CDX endpoint is
down. -/
def demoCtx : RCtx where
  md5hex := md5Std
  assetNet := fun u =>
    if strContains u "/web/20050504120000im_/" then
      some ⟨200, none, "image/gif", "G"⟩
    else none
  cdxNet := fun _ => none
  mainNet := fun u =>
    if u = demoItem.waybackUrl then some [{ tag := Tag.img, src := some "x.gif" }]
    else none

/-- First download run over the one-item inventory, from an empty disk. -/
def demoRun1 := runDownloadModel demoCtx ⟨[], []⟩ [demoItem]

/-- Second run, after the item status is reset to `discovered` (the
repository's `reset_inventory.js` flow), over the disk state the first
run left behind. -/
def demoRun2 := runDownloadModel demoCtx demoRun1.2.1 [demoItem]

/-- The asset file the first run stores for the `x.gif` reference. -/
def demoAssetPath : String :=
  assetsDirOf demoItem ++ "/" ++
    localFilenameOf md5Std demoItem.timestamp demoItem.originalUrl "x.gif" true

/-- An asset context whose asset and CDX networks are both unreachable. -/
def offCtx : ACtx where
  md5hex := md5Std
  assetNet := fun _ => none
  cdxNet := fun _ => none
  itemTimestamp := "20050504120000"
  itemOriginalUrl := "http://site.org/foo/bar.html"

/-- An asset context whose archive answers every fetch with a status-200
HTML error page. -/
def htmlCtx : ACtx where
  md5hex := md5Std
  assetNet := fun _ => some ⟨200, none, "text/html", "<html>404</html>"⟩
  cdxNet := fun _ => none
  itemTimestamp := "20050504120000"
  itemOriginalUrl := "http://site.org/foo/bar.html"

/-- An asset context whose archive answers every fetch with status-200 CSS
bytes. -/
def cssCtx : ACtx where
  md5hex := md5Std
  assetNet := fun _ => some ⟨200, none, "text/css", "body{}"⟩
  cdxNet := fun _ => none
  itemTimestamp := "20050504120000"
  itemOriginalUrl := "http://site.org/foo/bar.html"

/-- A document that references the same image twice. -/
def dupDoc : Doc :=
  [{ tag := Tag.img, src := some "a.gif" }, { tag := Tag.img, src := some "a.gif" }]

/-! ## Lemmas about `fetchWayback` -/

/-- Any followed address carries the archive marker: archive-internal
redirect targets by the branch guard, live targets because the rewrite
prepends the archived-URL prefix. -/
theorem fetchStep_follow_marker {ts url : String} {o : Option HttpResp}
    {next : String} (h : fetchStep ts url o = StepRes.follow next) :
    strContains next "web.archive.org/web/" = true := by
  rcases o with _ | res
  · simp [fetchStep] at h
  · by_cases h4 : res.status ≥ 400
    · simp [fetchStep, h4] at h
    · by_cases h3 : res.status ≥ 300
      · rcases hl : res.location with _ | loc
        · simp [fetchStep, h4, h3, hl] at h
        · by_cases hc : strContains loc "web.archive.org/web/" = true
          · simp [fetchStep, h4, h3, hl, hc] at h
            exact h ▸ hc
          · simp [fetchStep, h4, h3, hl, hc] at h
            exact h ▸ waybackRewrite_has_marker ts url loc
      · simp [fetchStep, h4, h3] at h

/-- With no retries left, exactly one request is made. -/
theorem fetchWayback_zero_log (net : Net) (ts url : String) :
    (fetchWayback net ts url 0).2 = [url] := by
  simp only [fetchWayback]
  rcases fetchStep ts url (net url) with _ | r | next <;> rfl

/-- One step of `fetchWayback`: either it answers after the single request,
or it recurses on a followed address in archived-URL space. -/
theorem fetchWayback_succ_log (net : Net) (ts url : String) (r : Nat) :
    (fetchWayback net ts url (r + 1)).2 = [url] ∨
    ∃ next, strContains next "web.archive.org/web/" = true ∧
      (fetchWayback net ts url (r + 1)).1 = (fetchWayback net ts next r).1 ∧
      (fetchWayback net ts url (r + 1)).2 = url :: (fetchWayback net ts next r).2 := by
  rcases hs : fetchStep ts url (net url) with _ | resp | next
  · exact Or.inl (by simp only [fetchWayback, hs])
  · exact Or.inl (by simp only [fetchWayback, hs])
  · exact Or.inr ⟨next, fetchStep_follow_marker hs,
      by simp only [fetchWayback, hs], by simp only [fetchWayback, hs]⟩

/-- The request log always starts with the entry address. -/
theorem fetchWayback_log_head (net : Net) (ts : String) (r : Nat) (url : String) :
    ∃ t, (fetchWayback net ts url r).2 = url :: t := by
  cases r with
  | zero => exact ⟨[], fetchWayback_zero_log net ts url⟩
  | succ r =>
    rcases fetchWayback_succ_log net ts url r with h | ⟨next, _, _, hlog⟩
    · exact ⟨[], h⟩
    · exact ⟨_, hlog⟩

/-- The redirect chain is bounded: at most `retries + 1` requests. -/
theorem fetchWayback_log_bound (net : Net) (ts : String) :
    ∀ (r : Nat) (url : String), ((fetchWayback net ts url r).2).length ≤ r + 1 := by
  intro r
  induction r with
  | zero => intro url; rw [fetchWayback_zero_log]; exact Nat.le_refl 1
  | succ r ih =>
    intro url
    rcases fetchWayback_succ_log net ts url r with h | ⟨next, _, _, hlog⟩
    · rw [h]; simp
    · rw [hlog, List.length_cons]
      exact Nat.succ_le_succ (ih next)

/-- Every address requested after the entry one lies in archived-URL
space: live redirect targets are never fetched directly. -/
theorem fetchWayback_log_urls (net : Net) (ts : String) :
    ∀ (r : Nat) (url v : String), v ∈ (fetchWayback net ts url r).2 →
      v = url ∨ strContains v "web.archive.org/web/" = true := by
  intro r
  induction r with
  | zero =>
    intro url v hv
    rw [fetchWayback_zero_log] at hv
    exact Or.inl (List.mem_singleton.mp hv)
  | succ r ih =>
    intro url v hv
    rcases fetchWayback_succ_log net ts url r with h | ⟨next, hnext, _, hlog⟩
    · rw [h] at hv; exact Or.inl (List.mem_singleton.mp hv)
    · rw [hlog] at hv
      rcases List.mem_cons.mp hv with h | h
      · exact Or.inl h
      · rcases ih next v h with h | h
        · exact Or.inr (h ▸ hnext)
        · exact Or.inr h

/-- A network that answers every address with a redirect-plus-location. -/
def alwaysRedirects (net : Net) : Prop :=
  ∀ u, ∃ r, net u = some r ∧ 300 ≤ r.status ∧ r.status < 400 ∧ ∃ l, r.location = some l

/-- A redirect-with-location response always dispatches to `follow`. -/
theorem fetchStep_of_redirect {ts url : String} {res : HttpResp} {l : String}
    (h3 : 300 ≤ res.status) (h4 : res.status < 400) (hl : res.location = some l) :
    ∃ next, fetchStep ts url (some res) = StepRes.follow next := by
  have h4' : ¬ res.status ≥ 400 := by omega
  by_cases hc : strContains l "web.archive.org/web/" = true
  · exact ⟨l, by simp [fetchStep, h4', h3, hl, hc]⟩
  · exact ⟨waybackRewrite ts url l, by simp [fetchStep, h4', h3, hl, hc]⟩

/-- Against an all-redirect network every chain exhausts its retries and
returns the clean `null` dead-end (no bytes). -/
theorem fetchWayback_chain_exceeds (net : Net) (ts : String)
    (h : alwaysRedirects net) :
    ∀ (r : Nat) (url : String), (fetchWayback net ts url r).1 = some none := by
  intro r
  induction r with
  | zero =>
    intro url
    obtain ⟨res, hn, h3, h4, l, hl⟩ := h url
    obtain ⟨next, hstep⟩ := @fetchStep_of_redirect ts url res l h3 h4 hl
    simp only [fetchWayback, hn, hstep]
  | succ r ih =>
    intro url
    obtain ⟨res, hn, h3, h4, l, hl⟩ := h url
    obtain ⟨next, hstep⟩ := @fetchStep_of_redirect ts url res l h3 h4 hl
    simp only [fetchWayback, hn, hstep]
    exact ih next

/-- A transport error on the first request propagates as a throw. -/
theorem fetchWayback_thrown (net : Net) (ts url : String) (hn : net url = none)
    (r : Nat) : fetchWayback net ts url r = (none, [url]) := by
  have hstep : fetchStep ts url (net url) = StepRes.thrown := by
    simp [fetchStep, hn]
  cases r <;> simp only [fetchWayback, hstep]

/-- A non-redirect accepted response is returned after one request. -/
theorem fetchWayback_success (net : Net) (ts url : String) (resp : HttpResp)
    (hn : net url = some resp) (hst : resp.status < 300) (r : Nat) :
    fetchWayback net ts url r = (some (some resp), [url]) := by
  have h4 : ¬ resp.status ≥ 400 := by omega
  have h3 : ¬ resp.status ≥ 300 := by omega
  have hstep : fetchStep ts url (net url) = StepRes.settled (some resp) := by
    simp only [fetchStep, hn]
    rw [if_neg h4, if_neg h3]
  cases r <;> simp only [fetchWayback, hstep]

/-- Unfolding `fetchWayback` through a followed redirect. -/
theorem fetchWayback_follow (net : Net) (ts url next : String) (r : Nat)
    (hstep : fetchStep ts url (net url) = StepRes.follow next) :
    fetchWayback net ts url (r + 1) =
      ((fetchWayback net ts next r).1, url :: (fetchWayback net ts next r).2) := by
  simp only [fetchWayback, hstep]

/-! ## Claim theorems -/

/-- C2. Redirect handling during asset fetch, at the source's retry bound
of 3: (i) at most four requests are ever issued; (ii) every address
requested after the entry one lies in archived-URL space, so live content
is never fetched — a live redirect target is first rewritten with the
timestamp of the current archived URL (falling back to the item
timestamp); (iii) a redirect chain exceeding the bound returns the clean
`null` dead-end, with no bytes; (iv) upon a redirect to a live
(non-archived) location the next request is exactly the archived rewrite
of that location. -/
theorem fetchWayback_redirect_contract :
    (∀ (net : Net) (ts url : String), ((fetchWayback net ts url 3).2).length ≤ 4) ∧
    (∀ (net : Net) (ts url v : String), v ∈ (fetchWayback net ts url 3).2 →
      v = url ∨ strContains v "web.archive.org/web/" = true) ∧
    (∀ (net : Net) (ts url : String), alwaysRedirects net →
      (fetchWayback net ts url 3).1 = some none) ∧
    (∀ (net : Net) (ts url loc : String) (res : HttpResp),
      net url = some res → 300 ≤ res.status → res.status < 400 →
      res.location = some loc → strContains loc "web.archive.org/web/" = false →
      ((fetchWayback net ts url 3).2).get? 1 = some (waybackRewrite ts url loc) ∧
      strContains (waybackRewrite ts url loc) "web.archive.org/web/" = true) := by
  refine ⟨fun net ts url => fetchWayback_log_bound net ts 3 url,
          fun net ts url v hv => fetchWayback_log_urls net ts 3 url v hv,
          fun net ts url h => fetchWayback_chain_exceeds net ts h 3 url,
          fun net ts url loc res hn h3 h4 hl hc => ?_⟩
  have h4' : ¬ res.status ≥ 400 := by omega
  have hstep : fetchStep ts url (net url) = StepRes.follow (waybackRewrite ts url loc) := by
    simp [fetchStep, hn, h4', h3, hl, hc]
  obtain ⟨t, ht⟩ := fetchWayback_log_head net ts 2 (waybackRewrite ts url loc)
  constructor
  · show ((fetchWayback net ts url (2 + 1)).2).get? 1 = _
    rw [fetchWayback_follow net ts url _ 2 hstep]
    simp [ht]
  · exact waybackRewrite_has_marker ts url loc

/-! ## Lemmas about the asset store (`downloadAsset`) -/

theorem fsLookup_fsWrite (fs : FS) (q v p : String) :
    fsLookup (fsWrite fs q v) p = if q = p then some v else fsLookup fs p := rfl

/-- The write gate returns exactly the log it was given. -/
theorem writeResult_reqs (fs : FS) (lp lf : String) (r : Option HttpResp)
    (log : List String) : (writeResult fs lp lf r log).reqs = log := by
  rcases r with _ | resp
  · rfl
  · simp only [writeResult]
    split <;> rfl

/-- The write gate either leaves the store alone or writes `lp`. -/
theorem writeResult_fs_cases (fs : FS) (lp lf : String) (r : Option HttpResp)
    (log : List String) :
    (writeResult fs lp lf r log).fs = fs ∨
    ∃ b, (writeResult fs lp lf r log).fs = fsWrite fs lp b := by
  rcases r with _ | resp
  · exact Or.inl rfl
  · by_cases h : resp.status = 200 ∧ resp.body ≠ ""
    · exact Or.inr ⟨resp.body, by simp [writeResult, h]⟩
    · exact Or.inl (by simp [writeResult, h])

/-- Every outcome of the fetch branch passes through the write gate at the
fixed destination `lp`. -/
theorem fetchAndStore_is_write (ctx : ACtx) (fs : FS) (url : String)
    (isImage : Bool) (lf lp : String) :
    ∃ r log, fetchAndStore ctx fs url isImage lf lp = writeResult fs lp lf r log := by
  unfold fetchAndStore
  rcases hfw : fetchWayback ctx.assetNet ctx.itemTimestamp
      (waybackUrlOf ctx.itemTimestamp ctx.itemOriginalUrl url isImage) 3 with ⟨r1, log1⟩
  simp only [hfw]
  by_cases hre : respFailedOrEmpty (r1.getD none) = true
  · rw [if_pos hre]
    rcases hcx : ctx.cdxNet (cdxUrlOf
        (cdxOriginalUrl (cleanUrlOf url) (canonicalAbsUrl ctx.itemOriginalUrl url))
        (if ctx.itemTimestamp ≠ "" then ctx.itemTimestamp else "20060101")) with _ | p
    · simp only [hcx]
      exact ⟨_, _, rfl⟩
    · rcases p with ⟨st, rows⟩
      simp only [hcx]
      by_cases hst : st = 200 ∧ rows.length > 1
      · rw [if_pos hst]
        rcases hfw2 : fetchWayback ctx.assetNet ctx.itemTimestamp
            ("http://web.archive.org/web/" ++ ((((rows.get? 1).getD []).get? 1).getD "") ++
              "id_/" ++ cdxOriginalUrl (cleanUrlOf url) (canonicalAbsUrl ctx.itemOriginalUrl url)) 3
          with ⟨r2, log2⟩
        simp only [hfw2]
        exact ⟨_, _, rfl⟩
      · rw [if_neg hst]
        exact ⟨_, _, rfl⟩
  · rw [if_neg hre]
    exact ⟨_, _, rfl⟩

/-- `downloadAsset` either leaves the store alone, or writes exactly the
hashed destination inside the asset directory — and only when that
destination was absent or empty beforehand. -/
theorem downloadAsset_fs_cases (ctx : ACtx) (ad : String) (fs : FS) (url : String)
    (isImage : Bool) :
    (downloadAsset ctx ad fs url isImage).fs = fs ∨
    ∃ b, (downloadAsset ctx ad fs url isImage).fs =
        fsWrite fs (ad ++ "/" ++ localFilenameOf ctx.md5hex ctx.itemTimestamp
          ctx.itemOriginalUrl url isImage) b ∧
      (fsLookup fs (ad ++ "/" ++ localFilenameOf ctx.md5hex ctx.itemTimestamp
          ctx.itemOriginalUrl url isImage) = none ∨
       fsLookup fs (ad ++ "/" ++ localFilenameOf ctx.md5hex ctx.itemTimestamp
          ctx.itemOriginalUrl url isImage) = some "") := by
  unfold downloadAsset
  by_cases h0 : url = ""
  · rw [if_pos h0]; exact Or.inl rfl
  · rw [if_neg h0]
    rcases hlp : fsLookup fs (ad ++ "/" ++ localFilenameOf ctx.md5hex ctx.itemTimestamp
        ctx.itemOriginalUrl url isImage) with _ | c
    · simp only [hlp]
      obtain ⟨r, log, heq⟩ := fetchAndStore_is_write ctx fs url isImage _ _
      rw [heq]
      rcases writeResult_fs_cases fs _ _ r log with h | ⟨b, h⟩
      · exact Or.inl h
      · exact Or.inr ⟨b, h, Or.inl trivial⟩
    · simp only [hlp]
      by_cases hcc : c = ""
      · rw [if_pos hcc]
        obtain ⟨r, log, heq⟩ := fetchAndStore_is_write ctx fs url isImage _ _
        rw [heq]
        rcases writeResult_fs_cases fs _ _ r log with h | ⟨b, h⟩
        · exact Or.inl h
        · exact Or.inr ⟨b, h, Or.inr (by rw [hcc])⟩
      · rw [if_neg hcc]
        exact Or.inl rfl

/-- Existing non-empty files are never overwritten (nor removed). -/
theorem downloadAsset_preserves (ctx : ACtx) (ad : String) (fs : FS) (url : String)
    (isImage : Bool) (p c : String) (hp : fsLookup fs p = some c) (hc : c ≠ "") :
    fsLookup (downloadAsset ctx ad fs url isImage).fs p = some c := by
  rcases downloadAsset_fs_cases ctx ad fs url isImage with h | ⟨b, h, habs⟩
  · rw [h]; exact hp
  · rw [h, fsLookup_fsWrite]
    by_cases hpq : (ad ++ "/" ++ localFilenameOf ctx.md5hex ctx.itemTimestamp
        ctx.itemOriginalUrl url isImage) = p
    · exfalso
      rw [hpq] at habs
      rcases habs with habs | habs <;> rw [habs] at hp
      · exact Option.noConfusion hp
      · exact hc (Option.some.inj hp).symm
    · rw [if_neg hpq]; exact hp

/-- The skip branch: an existing non-empty destination short-circuits the
fetch and returns the relative link into the asset directory. -/
theorem downloadAsset_skip (ctx : ACtx) (ad : String) (fs : FS) (url : String)
    (isImage : Bool) (content : String) (h0 : url ≠ "")
    (h1 : fsLookup fs (ad ++ "/" ++ localFilenameOf ctx.md5hex ctx.itemTimestamp
        ctx.itemOriginalUrl url isImage) = some content)
    (h2 : content ≠ "") :
    downloadAsset ctx ad fs url isImage =
      ⟨some ("../../assets/" ++ localFilenameOf ctx.md5hex ctx.itemTimestamp
        ctx.itemOriginalUrl url isImage), fs, []⟩ := by
  unfold downloadAsset
  rw [if_neg h0]
  simp only [h1]
  rw [if_neg h2]

/-! ## Lemmas about filename safety and the orchestrator structure -/

theorem data_asString (l : List Char) : l.asString.data = l := rfl

theorem data_len_pos_of_ne_empty {s : String} (h : s ≠ "") : 1 ≤ s.data.length := by
  rcases s with ⟨l⟩
  cases l with
  | nil => exact absurd rfl h
  | cons a as => simp

theorem foldl_afterLastSep_no_slash :
    ∀ (l acc : List Char), '/' ∉ acc →
      '/' ∉ l.foldl (fun acc c => if c = '/' then [] else acc ++ [c]) acc := by
  intro l
  induction l with
  | nil => intro acc h; exact h
  | cons c rest ih =>
    intro acc h
    simp only [List.foldl_cons]
    by_cases hc : c = '/'
    · rw [if_pos hc]
      exact ih [] (by simp)
    · rw [if_neg hc]
      refine ih _ ?_
      intro hmem
      rcases List.mem_append.mp hmem with h1 | h1
      · exact h h1
      · rw [List.mem_singleton] at h1
        exact hc h1.symm

/-- The basename scan never emits a separator. -/
theorem afterLastSep_no_slash (l : List Char) : '/' ∉ afterLastSep l :=
  foldl_afterLastSep_no_slash l [] (by simp)

/-- `path.extname` output contains no separator. -/
theorem extname_no_slash (p : String) : '/' ∉ (extname p).data := by
  simp only [extname]
  by_cases hb : afterLastSep p.data = ['.', '.']
  · rw [if_pos hb]; simp
  · rw [if_neg hb]
    rcases hlast : lastDotIdx (afterLastSep p.data) with _ | i
    · simp
    · rcases i with _ | j
      · simp
      · simp only [data_asString]
        intro hmem
        exact afterLastSep_no_slash p.data (List.mem_of_mem_drop hmem)

/-- The extension rule always produces a non-empty, separator-free
string. -/
theorem extFromUrl_safe (cleanUrl : String) (isImage : Bool) :
    '/' ∉ (extFromUrl cleanUrl isImage).data ∧
    1 ≤ (extFromUrl cleanUrl isImage).data.length := by
  simp only [extFromUrl]
  by_cases he : extname ((strSplit cleanUrl "?").headD "") = ""
  · rw [if_pos he]
    cases isImage <;> exact ⟨by decide, by decide⟩
  · rw [if_neg he]
    by_cases hl : (extname ((strSplit cleanUrl "?").headD "")).length > 5
    · rw [if_pos hl]
      cases isImage <;> exact ⟨by decide, by decide⟩
    · rw [if_neg hl]
      exact ⟨extname_no_slash _, data_len_pos_of_ne_empty he⟩

/-- The content-addressed filename is a single long, separator-free path
component (given that the digest is 32 separator-free characters, as an
MD5 hex digest is). -/
theorem localFilenameOf_safe (md5 : String → String) (ts o url : String) (isImage : Bool)
    (hmd5 : ∀ s, '/' ∉ (md5 s).data ∧ (md5 s).data.length = 32) :
    '/' ∉ (localFilenameOf md5 ts o url isImage).data ∧
    33 ≤ (localFilenameOf md5 ts o url isImage).data.length := by
  unfold localFilenameOf
  rw [str_data_append]
  obtain ⟨h1, h2⟩ := hmd5 (waybackUrlOf ts o url isImage)
  obtain ⟨h3, h4⟩ := extFromUrl_safe (cleanUrlOf url) isImage
  constructor
  · intro hmem
    rcases List.mem_append.mp hmem with h | h
    · exact h1 h
    · exact h3 h
  · rw [List.length_append, h2]
    omega

/-- No hex digit is a separator. -/
theorem hexDigitL_ne_slash (n : Nat) : hexDigitL n ≠ '/' := by
  unfold hexDigitL decDigitsLo decDigitsHi hexLettersL
  rcases Nat.lt_or_ge n 16 with h | h
  · interval_cases n <;> decide
  · rw [List.getD_eq_default _ _ (by simpa using h)]
    decide

/-- The stand-in digest has the two properties the safety proof needs of
MD5 hex digests. -/
theorem md5Std_safe : ∀ s, '/' ∉ (md5Std s).data ∧ (md5Std s).data.length = 32 := by
  intro s
  constructor
  · intro hmem
    simp only [md5Std, data_asString] at hmem
    rcases List.mem_map.mp hmem with ⟨i, _, hi⟩
    exact hexDigitL_ne_slash _ hi
  · simp [md5Std, data_asString]

/-- Unfolding `processAssets` over one site. -/
theorem processAssets_cons (ctx : ACtx) (ad : String) (fs : FS) (s : Site)
    (rest : List Site) :
    processAssets ctx ad fs (s :: rest) =
      ((s, (downloadAsset ctx ad fs s.url s.isImage).link) ::
        (processAssets ctx ad (downloadAsset ctx ad fs s.url s.isImage).fs rest).1,
       (processAssets ctx ad (downloadAsset ctx ad fs s.url s.isImage).fs rest).2.1,
       (downloadAsset ctx ad fs s.url s.isImage).reqs ++
        (processAssets ctx ad (downloadAsset ctx ad fs s.url s.isImage).fs rest).2.2) := by
  rcases hp : processAssets ctx ad (downloadAsset ctx ad fs s.url s.isImage).fs rest
    with ⟨rs, fs2, reqs⟩
  simp only [processAssets, hp]

/-- Phase 2 pairs each collected site, in order, with its resolution
outcome: exactly one `downloadAsset` resolution per site. -/
theorem processAssets_sites (ctx : ACtx) (ad : String) :
    ∀ (sites : List Site) (fs : FS),
      ((processAssets ctx ad fs sites).1).map Prod.fst = sites := by
  intro sites
  induction sites with
  | nil => intro fs; rfl
  | cons s rest ih =>
    intro fs
    rw [processAssets_cons]
    simp only [List.map_cons]
    rw [ih]

/-- Every store entry phase 2 changes sits at a hashed, separator-free
name directly inside the asset directory. -/
theorem processAssets_writes_inside (ctx : ACtx) (ad : String)
    (hmd5 : ∀ s, '/' ∉ (ctx.md5hex s).data ∧ (ctx.md5hex s).data.length = 32) :
    ∀ (sites : List Site) (fs : FS) (p : String),
      fsLookup (processAssets ctx ad fs sites).2.1 p ≠ fsLookup fs p →
      ∃ n, p = ad ++ "/" ++ n ∧ '/' ∉ n.data ∧ 33 ≤ n.data.length := by
  intro sites
  induction sites with
  | nil =>
    intro fs p h
    exact absurd rfl h
  | cons s rest ih =>
    intro fs p h
    simp only [processAssets_cons] at h
    by_cases hmid : fsLookup
        (processAssets ctx ad (downloadAsset ctx ad fs s.url s.isImage).fs rest).2.1 p =
        fsLookup (downloadAsset ctx ad fs s.url s.isImage).fs p
    · have hda : fsLookup (downloadAsset ctx ad fs s.url s.isImage).fs p ≠
          fsLookup fs p := by
        intro he
        exact h (by rw [hmid, he])
      rcases downloadAsset_fs_cases ctx ad fs s.url s.isImage with hfs | ⟨b, hfs, _⟩
      · exact absurd (by rw [hfs]) hda
      · by_cases hpq : (ad ++ "/" ++ localFilenameOf ctx.md5hex ctx.itemTimestamp
            ctx.itemOriginalUrl s.url s.isImage) = p
        · exact ⟨localFilenameOf ctx.md5hex ctx.itemTimestamp ctx.itemOriginalUrl
            s.url s.isImage, hpq.symm,
            (localFilenameOf_safe _ _ _ _ _ hmd5).1,
            (localFilenameOf_safe _ _ _ _ _ hmd5).2⟩
        · exact absurd (by rw [hfs, fsLookup_fsWrite, if_neg hpq]) hda
    · exact ih _ p hmid

/-- Unfolding `processHtmlDoc`. -/
theorem processHtmlDoc_eq (ctx : ACtx) (ad : String) (fs : FS) (doc : Doc) :
    processHtmlDoc ctx ad fs doc =
      (applyRewrites doc (processAssets ctx ad fs (collectAssets doc)).1,
       (processAssets ctx ad fs (collectAssets doc)).2.1,
       (processAssets ctx ad fs (collectAssets doc)).2.2) := by
  rcases hp : processAssets ctx ad fs (collectAssets doc) with ⟨rs, fs2, reqs⟩
  simp only [processHtmlDoc, hp]

/-- `postProcess` on a non-HTML target is a no-op. -/
theorem postProcess_eq_nonhtml (ctx : RCtx) (it : Item) (w : World) (tp : String)
    (he : strEnds tp ".html" = false) : postProcess ctx it w tp = (w, []) := by
  simp only [postProcess, he]
  rfl

/-- `postProcess` on an HTML target that is missing from disk is a
no-op. -/
theorem postProcess_eq_nodoc (ctx : RCtx) (it : Item) (w : World) (tp : String)
    (he : strEnds tp ".html" = true) (hd : docsLookup w.docs tp = none) :
    postProcess ctx it w tp = (w, []) := by
  simp only [postProcess, he, if_true, hd]

/-- `postProcess` on a present HTML document runs the rewriter. -/
theorem postProcess_eq_html (ctx : RCtx) (it : Item) (w : World) (tp : String)
    (he : strEnds tp ".html" = true) (doc : Doc)
    (hd : docsLookup w.docs tp = some doc) :
    postProcess ctx it w tp =
      (⟨docsWrite w.docs tp
          (processHtmlDoc (mkACtx ctx it) (assetsDirOf it) w.assets doc).1,
        (processHtmlDoc (mkACtx ctx it) (assetsDirOf it) w.assets doc).2.1⟩,
       (processHtmlDoc (mkACtx ctx it) (assetsDirOf it) w.assets doc).2.2) := by
  rcases hp : processHtmlDoc (mkACtx ctx it) (assetsDirOf it) w.assets doc
    with ⟨d2, a2, r2⟩
  simp only [postProcess, he, if_true, hd, hp]

/-- `processItem` when the target file already exists on disk. -/
theorem processItem_eq_exists (ctx : RCtx) (w : World) (it : Item) (d : Doc)
    (hd : docsLookup w.docs (targetPathOf it) = some d) :
    processItem ctx w it =
      ({ it with status := Status.downloaded, localPath := some (targetPathOf it) },
       (postProcess ctx it w (targetPathOf it)).1,
       (postProcess ctx it w (targetPathOf it)).2) := by
  rcases hp : postProcess ctx it w (targetPathOf it) with ⟨w2, reqs⟩
  simp only [processItem, hd, hp]

/-- `processItem` when the main fetch fails. -/
theorem processItem_eq_fail (ctx : RCtx) (w : World) (it : Item)
    (hd : docsLookup w.docs (targetPathOf it) = none)
    (hm : ctx.mainNet it.waybackUrl = none) :
    processItem ctx w it = ({ it with status := Status.failed }, w, [it.waybackUrl]) := by
  simp only [processItem, hd, hm]

/-- `processItem` when the main document is fetched fresh. -/
theorem processItem_eq_fetch (ctx : RCtx) (w : World) (it : Item) (doc0 : Doc)
    (hd : docsLookup w.docs (targetPathOf it) = none)
    (hm : ctx.mainNet it.waybackUrl = some doc0) :
    processItem ctx w it =
      ({ it with status := Status.downloaded, localPath := some (targetPathOf it) },
       (postProcess ctx it ⟨docsWrite w.docs (targetPathOf it) doc0, w.assets⟩
         (targetPathOf it)).1,
       it.waybackUrl :: (postProcess ctx it
         ⟨docsWrite w.docs (targetPathOf it) doc0, w.assets⟩ (targetPathOf it)).2) := by
  rcases hp : postProcess ctx it ⟨docsWrite w.docs (targetPathOf it) doc0, w.assets⟩
    (targetPathOf it) with ⟨w2, reqs⟩
  simp only [processItem, hd, hm, hp]

/-- `postProcess` only changes asset entries at hashed names inside the
era's asset directory. -/
theorem postProcess_assets_inside (ctx : RCtx) (it : Item) (w : World) (tp p : String)
    (hmd5 : ∀ s, '/' ∉ (ctx.md5hex s).data ∧ (ctx.md5hex s).data.length = 32)
    (h : fsLookup (postProcess ctx it w tp).1.assets p ≠ fsLookup w.assets p) :
    ∃ n, p = assetsDirOf it ++ "/" ++ n ∧ '/' ∉ n.data ∧ 33 ≤ n.data.length := by
  by_cases he : strEnds tp ".html" = true
  · rcases hd : docsLookup w.docs tp with _ | doc
    · rw [postProcess_eq_nodoc ctx it w tp he hd] at h
      exact absurd rfl h
    · rw [postProcess_eq_html ctx it w tp he doc hd, processHtmlDoc_eq] at h
      exact processAssets_writes_inside (mkACtx ctx it) (assetsDirOf it) hmd5
        (collectAssets doc) w.assets p h
  · rw [postProcess_eq_nonhtml ctx it w tp (by simpa using he)] at h
    exact absurd rfl h

/-! ## Lemmas about the collection phase and the rewrite phase -/

/-- Every collected reference passed the guard, which excludes strings
beginning with `..`. -/
theorem refGuard_no_parent {u : String} (h : refGuard u = true) :
    strStarts u ".." = false := by
  unfold refGuard at h
  simp only [Bool.and_eq_true, Bool.not_eq_true'] at h
  exact h.2

/-- Inversion for image collection. -/
theorem mem_collectImgs {doc : Doc} {s : Site} (h : s ∈ collectImgs doc) :
    ∃ e, doc.get? s.idx = some e ∧ e.tag = Tag.img ∧ e.src = some s.url ∧
      refGuard s.url = true := by
  unfold collectImgs at h
  rcases List.mem_filterMap.mp h with ⟨⟨i, e⟩, hmem, hf⟩
  have hidx : doc.get? i = some e := by
    rw [List.get?_eq_getElem?]
    exact List.mk_mem_enum_iff_getElem?.mp hmem
  rcases he : e.tag with _ | _ | _ | _ <;> rcases hs : e.src with _ | u <;>
      simp only [he, hs] at hf <;>
    try exact Option.noConfusion hf
  by_cases hg : refGuard u = true
  · rw [if_pos hg] at hf
    obtain rfl := (Option.some.inj hf)
    exact ⟨e, hidx, he, hs, hg⟩
  · rw [if_neg hg] at hf
    exact absurd hf (by simp)

/-- Inversion for stylesheet collection. -/
theorem mem_collectLinks {doc : Doc} {s : Site} (h : s ∈ collectLinks doc) :
    ∃ e, doc.get? s.idx = some e ∧ e.tag = Tag.link ∧ e.href = some s.url ∧
      refGuard s.url = true := by
  unfold collectLinks at h
  rcases List.mem_filterMap.mp h with ⟨⟨i, e⟩, hmem, hf⟩
  have hidx : doc.get? i = some e := by
    rw [List.get?_eq_getElem?]
    exact List.mk_mem_enum_iff_getElem?.mp hmem
  rcases he : e.tag with _ | _ | _ | _ <;> rcases hs : e.href with _ | u <;>
      simp only [he, hs] at hf <;>
    try exact Option.noConfusion hf
  by_cases hg : (isStylesheet e && refGuard u) = true
  · rw [if_pos hg] at hf
    obtain rfl := (Option.some.inj hf)
    have hg2 : isStylesheet e = true ∧ refGuard u = true := by simpa using hg
    exact ⟨e, hidx, he, hs, hg2.2⟩
  · rw [if_neg hg] at hf
    exact absurd hf (by simp)

/-- Inversion for script collection. -/
theorem mem_collectScripts {doc : Doc} {s : Site} (h : s ∈ collectScripts doc) :
    ∃ e, doc.get? s.idx = some e ∧ e.tag = Tag.script ∧ e.src = some s.url ∧
      refGuard s.url = true := by
  unfold collectScripts at h
  rcases List.mem_filterMap.mp h with ⟨⟨i, e⟩, hmem, hf⟩
  have hidx : doc.get? i = some e := by
    rw [List.get?_eq_getElem?]
    exact List.mk_mem_enum_iff_getElem?.mp hmem
  rcases he : e.tag with _ | _ | _ | _ <;> rcases hs : e.src with _ | u <;>
      simp only [he, hs] at hf <;>
    try exact Option.noConfusion hf
  by_cases hg : refGuard u = true
  · rw [if_pos hg] at hf
    obtain rfl := (Option.some.inj hf)
    exact ⟨e, hidx, he, hs, hg⟩
  · rw [if_neg hg] at hf
    exact absurd hf (by simp)

/-- Inversion for the whole collection phase. -/
theorem mem_collectAssets {doc : Doc} {s : Site} (h : s ∈ collectAssets doc) :
    refGuard s.url = true ∧
    ∃ e, doc.get? s.idx = some e ∧
      ((e.tag = Tag.img ∧ e.src = some s.url) ∨
       (e.tag = Tag.link ∧ e.href = some s.url) ∨
       (e.tag = Tag.script ∧ e.src = some s.url)) := by
  unfold collectAssets at h
  rcases List.mem_append.mp h with h | h
  · rcases List.mem_append.mp h with h | h
    · obtain ⟨e, h1, h2, h3, h4⟩ := mem_collectImgs h
      exact ⟨h4, e, h1, Or.inl ⟨h2, h3⟩⟩
    · obtain ⟨e, h1, h2, h3, h4⟩ := mem_collectLinks h
      exact ⟨h4, e, h1, Or.inr (Or.inl ⟨h2, h3⟩)⟩
  · obtain ⟨e, h1, h2, h3, h4⟩ := mem_collectScripts h
    exact ⟨h4, e, h1, Or.inr (Or.inr ⟨h2, h3⟩)⟩

/-- Phase 3 leaves every element whose index was not collected exactly as
it was. -/
theorem applyRewrites_get?_other :
    ∀ (rs : List (Site × Option String)) (doc : Doc) (i : Nat),
      (∀ x ∈ rs, x.1.idx ≠ i) → (applyRewrites doc rs).get? i = doc.get? i := by
  intro rs
  induction rs with
  | nil => intro doc i _; rfl
  | cons x rest ih =>
    intro doc i h
    rcases x with ⟨s, link⟩
    rcases link with _ | l
    · simp only [applyRewrites]
      exact ih doc i (fun y hy => h y (List.mem_cons_of_mem _ hy))
    · simp only [applyRewrites]
      by_cases hl : l ≠ ""
      · rw [if_pos hl]
        rw [ih _ i (fun y hy => h y (List.mem_cons_of_mem _ hy))]
        exact List.get?_set_ne _ _ (h (s, some l) (List.mem_cons_self _ _))
      · rw [if_neg hl]
        exact ih doc i (fun y hy => h y (List.mem_cons_of_mem _ hy))

/-! ## Lemmas for the orchestrator run -/

theorem docsLookup_docsWrite_self (ds : List (String × Doc)) (p : String) (d : Doc) :
    docsLookup (docsWrite ds p d) p = some d := by
  simp [docsLookup, docsWrite]

/-- A processed item always ends `downloaded` or `failed`. -/
theorem processItem_status (ctx : RCtx) (w : World) (it : Item) :
    (processItem ctx w it).1.status = Status.downloaded ∨
    (processItem ctx w it).1.status = Status.failed := by
  rcases hd : docsLookup w.docs (targetPathOf it) with _ | d
  · rcases hm : ctx.mainNet it.waybackUrl with _ | doc0
    · rw [processItem_eq_fail ctx w it hd hm]
      exact Or.inr rfl
    · rw [processItem_eq_fetch ctx w it doc0 hd hm]
      exact Or.inl rfl
  · rw [processItem_eq_exists ctx w it d hd]
    exact Or.inl rfl

/-- Unfolding the run over a to-be-processed head item. -/
theorem runDownloadModel_cons_proc (ctx : RCtx) (w : World) (it : Item)
    (rest : List Item)
    (h : it.status = Status.discovered ∨ it.status = Status.failed) :
    runDownloadModel ctx w (it :: rest) =
      ((processItem ctx w it).1 ::
        (runDownloadModel ctx (processItem ctx w it).2.1 rest).1,
       (runDownloadModel ctx (processItem ctx w it).2.1 rest).2.1,
       (processItem ctx w it).2.2 ++
        (runDownloadModel ctx (processItem ctx w it).2.1 rest).2.2) := by
  rcases hp1 : processItem ctx w it with ⟨it2, w2, reqs2⟩
  rcases hp2 : runDownloadModel ctx w2 rest with ⟨rest2, w3, reqs3⟩
  simp only [runDownloadModel, if_pos h, hp1, hp2]

/-- Unfolding the run over a head item that is skipped. -/
theorem runDownloadModel_cons_skip (ctx : RCtx) (w : World) (it : Item)
    (rest : List Item)
    (h : ¬(it.status = Status.discovered ∨ it.status = Status.failed)) :
    runDownloadModel ctx w (it :: rest) =
      (it :: (runDownloadModel ctx w rest).1,
       (runDownloadModel ctx w rest).2.1,
       (runDownloadModel ctx w rest).2.2) := by
  rcases hp2 : runDownloadModel ctx w rest with ⟨rest2, w3, reqs3⟩
  simp only [runDownloadModel, if_neg h, hp2]

/-- The run never drops or aborts items. -/
theorem runDownloadModel_length (ctx : RCtx) :
    ∀ (items : List Item) (w : World),
      ((runDownloadModel ctx w items).1).length = items.length := by
  intro items
  induction items with
  | nil => intro w; rfl
  | cons it rest ih =>
    intro w
    by_cases h : it.status = Status.discovered ∨ it.status = Status.failed
    · rw [runDownloadModel_cons_proc ctx w it rest h]
      simp [ih]
    · rw [runDownloadModel_cons_skip ctx w it rest h]
      simp [ih]

/-- Every to-be-processed item of the inventory is actually processed,
wherever it sits and whatever happens to the items before it. -/
theorem runDownloadModel_get (ctx : RCtx) :
    ∀ (items : List Item) (w : World) (k : Nat) (it : Item),
      items.get? k = some it →
      (it.status = Status.discovered ∨ it.status = Status.failed) →
      ∃ it2, ((runDownloadModel ctx w items).1).get? k = some it2 ∧
        (it2.status = Status.downloaded ∨ it2.status = Status.failed) := by
  intro items
  induction items with
  | nil => intro w k it h; exact absurd h (by simp)
  | cons a rest ih =>
    intro w k it hk hst
    cases k with
    | zero =>
      have ha : a = it := by simpa using hk
      rw [runDownloadModel_cons_proc ctx w a rest (by rw [ha]; exact hst)]
      exact ⟨(processItem ctx w a).1, rfl, processItem_status ctx w a⟩
    | succ k =>
      by_cases h : a.status = Status.discovered ∨ a.status = Status.failed
      · rw [runDownloadModel_cons_proc ctx w a rest h]
        simpa using ih (processItem ctx w a).2.1 k it (by simpa using hk) hst
      · rw [runDownloadModel_cons_skip ctx w a rest h]
        simpa using ih w k it (by simpa using hk) hst

/-- A network that redirects every address to the same live target. -/
def redirNet : Net := fun _ => some ⟨302, some "http://live.example/a", "", ""⟩

/-- Witness for `fetchWayback_redirect_contract` at a concrete all-redirect
network: the chain exceeds the bound and fails with no bytes, and the
second request is the archived rewrite of the live location. -/
theorem fetchWayback_redirect_contract_witness :
    (fetchWayback redirNet "20050504120000"
      "http://web.archive.org/web/20050504120000id_/http://a.org/x" 3).1 = some none ∧
    ((fetchWayback redirNet "20050504120000"
      "http://web.archive.org/web/20050504120000id_/http://a.org/x" 3).2).get? 1 =
      some (waybackRewrite "20050504120000"
        "http://web.archive.org/web/20050504120000id_/http://a.org/x"
        "http://live.example/a") := by
  constructor
  · exact fetchWayback_redirect_contract.2.2.1 redirNet _ _
      (fun u => ⟨⟨302, some "http://live.example/a", "", ""⟩, rfl, by decide, by decide,
        "http://live.example/a", rfl⟩)
  · exact (fetchWayback_redirect_contract.2.2.2 redirNet _ _ "http://live.example/a"
      ⟨302, some "http://live.example/a", "", ""⟩ rfl (by decide) (by decide) rfl
      (by decide)).1

/-- C5. URL normalization: the relative and root-relative resolutions
behave as claimed, but the already-absolute reference
`http://other.org:80/y.css` is NOT normalized to `http://other.org/y.css`:
`resolveUrl` returns `http`-prefixed strings verbatim, and the
default-port "double check" in `downloadAsset` never fires (the WHATWG
`url.port` getter reports `""` for a default port, so the strip condition
is dead) — the `:80` survives into the canonical archived address. -/
theorem resolveUrl_port_not_stripped :
    resolveUrl "http://site.org/foo/bar.html" "images/x.gif" =
      "http://site.org/foo/images/x.gif" ∧
    resolveUrl "http://site.org/foo/bar.html" "/images/x.gif" =
      "http://site.org/images/x.gif" ∧
    cleanUrlOf "http://other.org:80/y.css" = "http://other.org:80/y.css" ∧
    canonicalAbsUrl "http://site.org/foo/bar.html" "http://other.org:80/y.css" =
      "http://other.org:80/y.css" ∧
    waybackUrlOf "20050504120000" "http://site.org/foo/bar.html"
      "http://other.org:80/y.css" false =
      "http://web.archive.org/web/20050504120000id_/http://other.org:80/y.css" := by
  refine ⟨rfl, rfl, rfl, rfl, rfl⟩

/-- C1. Re-running the pipeline is NOT idempotent: the first run stores the
fetched image and rewrites its `src` to the BARE hashed filename (not the
`../../assets/` relative link the adjacent code comment promises); on the
second run that bare name does not start with `..`, is collected again,
resolves to a fresh archived address whose hashed destination is absent,
and a new network fetch is issued and the document rewritten again — even
though the asset bytes are already present and non-empty on disk. -/
theorem rerun_refetches_present_asset :
    docsLookup demoRun1.2.1.docs (targetPathOf demoItem) =
      some [{ tag := Tag.img,
              src := some (localFilenameOf md5Std demoItem.timestamp
                demoItem.originalUrl "x.gif" true) }] ∧
    fsLookup demoRun1.2.1.assets demoAssetPath = some "G" ∧
    demoRun2.2.2 ≠ [] ∧
    docsLookup demoRun2.2.1.docs (targetPathOf demoItem) ≠
      docsLookup demoRun1.2.1.docs (targetPathOf demoItem) := by
  refine ⟨by decide, by decide, by decide, by decide⟩

/-- C3 (amended). For every asset resolution where the reference kind is
image and the fetched snapshot is a status-200 response with a non-empty
body, the resolution SUCCEEDS regardless of the resolved content-type
(there is no content-type check): the body — HTML included — is written to
the hashed image destination and the local filename is returned. -/
theorem image_html_saved_general (ctx : ACtx) (ad : String) (fs : FS) (url : String)
    (resp : HttpResp) (h0 : url ≠ "")
    (habsent : fsLookup fs (ad ++ "/" ++ localFilenameOf ctx.md5hex ctx.itemTimestamp
      ctx.itemOriginalUrl url true) = none)
    (hnet : ctx.assetNet (waybackUrlOf ctx.itemTimestamp ctx.itemOriginalUrl url true) =
      some resp)
    (hst : resp.status = 200) (hct : resp.contentType = "text/html")
    (hbody : resp.body ≠ "") :
    downloadAsset ctx ad fs url true =
      ⟨some (localFilenameOf ctx.md5hex ctx.itemTimestamp ctx.itemOriginalUrl url true),
       fsWrite fs (ad ++ "/" ++ localFilenameOf ctx.md5hex ctx.itemTimestamp
         ctx.itemOriginalUrl url true) resp.body,
       [waybackUrlOf ctx.itemTimestamp ctx.itemOriginalUrl url true]⟩ := by
  unfold downloadAsset
  rw [if_neg h0]
  simp only [habsent]
  unfold fetchAndStore
  simp only [fetchWayback_success ctx.assetNet ctx.itemTimestamp _ resp hnet
    (by omega : resp.status < 300) 3]
  simp only [Option.getD_some]
  rw [if_neg (by simp [respFailedOrEmpty, hst, hbody])]
  simp only [writeResult]
  rw [if_pos ⟨hst, hbody⟩]

/-- Witness for `image_html_saved_general`: the concrete HTML-serving
archive. -/
theorem image_html_saved_general_witness :
    downloadAsset htmlCtx "./data/msbn/assets" [] "pic.gif" true =
      ⟨some (localFilenameOf md5Std "20050504120000"
        "http://site.org/foo/bar.html" "pic.gif" true),
       fsWrite [] ("./data/msbn/assets/" ++ localFilenameOf md5Std "20050504120000"
        "http://site.org/foo/bar.html" "pic.gif" true) "<html>404</html>",
       [waybackUrlOf "20050504120000" "http://site.org/foo/bar.html" "pic.gif" true]⟩ :=
  image_html_saved_general htmlCtx "./data/msbn/assets" [] "pic.gif"
    ⟨200, none, "text/html", "<html>404</html>"⟩ (by decide) rfl rfl rfl rfl (by decide)

/-- C4 (amended). The asset-store contract: an existing non-empty
destination short-circuits the fetch entirely — no network request, store
untouched — and returns the relative link `../../assets/` plus the
existing filename (not the bare filename); the extension is the URL's own
suffix when non-empty and at most 5 characters, else the kind default
(`.jpg` for images, `.css` otherwise); and an existing non-empty file is
never overwritten by any `downloadAsset` call. -/
theorem assetStore_contract :
    (∀ (ctx : ACtx) (ad : String) (fs : FS) (url : String) (isImage : Bool)
      (content : String), url ≠ "" →
      fsLookup fs (ad ++ "/" ++ localFilenameOf ctx.md5hex ctx.itemTimestamp
        ctx.itemOriginalUrl url isImage) = some content → content ≠ "" →
      downloadAsset ctx ad fs url isImage =
        ⟨some ("../../assets/" ++ localFilenameOf ctx.md5hex ctx.itemTimestamp
          ctx.itemOriginalUrl url isImage), fs, []⟩) ∧
    (∀ (cleanUrl : String) (isImage : Bool),
      (extname ((strSplit cleanUrl "?").headD "") ≠ "" →
        (extname ((strSplit cleanUrl "?").headD "")).length ≤ 5 →
        extFromUrl cleanUrl isImage = extname ((strSplit cleanUrl "?").headD "")) ∧
      (extname ((strSplit cleanUrl "?").headD "") = "" ∨
        5 < (extname ((strSplit cleanUrl "?").headD "")).length →
        extFromUrl cleanUrl isImage = if isImage then ".jpg" else ".css")) ∧
    (∀ (ctx : ACtx) (ad : String) (fs : FS) (url : String) (isImage : Bool)
      (p c : String), fsLookup fs p = some c → c ≠ "" →
      fsLookup (downloadAsset ctx ad fs url isImage).fs p = some c) := by
  refine ⟨downloadAsset_skip, fun cleanUrl isImage => ⟨?_, ?_⟩, downloadAsset_preserves⟩
  · intro hne hlen
    simp only [extFromUrl]
    rw [if_neg hne, if_neg (by omega)]
  · intro h
    rcases h with he | hl
    · simp only [extFromUrl]
      rw [if_pos he]
      cases isImage <;> simp
    · have hne : extname ((strSplit cleanUrl "?").headD "") ≠ "" := by
        intro h
        rw [h] at hl
        simp at hl
      simp only [extFromUrl]
      rw [if_neg hne, if_pos hl]

/-- Witness for `assetStore_contract`: a concrete cache hit. -/
theorem assetStore_contract_witness :
    downloadAsset offCtx "ad"
      [("ad/" ++ localFilenameOf md5Std "20050504120000"
          "http://site.org/foo/bar.html" "style.css" false, "X")]
      "style.css" false =
      ⟨some ("../../assets/" ++ localFilenameOf md5Std "20050504120000"
        "http://site.org/foo/bar.html" "style.css" false),
       [("ad/" ++ localFilenameOf md5Std "20050504120000"
          "http://site.org/foo/bar.html" "style.css" false, "X")], []⟩ :=
  assetStore_contract.1 offCtx "ad"
    [("ad/" ++ localFilenameOf md5Std "20050504120000"
        "http://site.org/foo/bar.html" "style.css" false, "X")]
    "style.css" false "X" (by decide) (by decide) (by decide)

/-- C8 (amended). The closest-snapshot lookup request is bit-exact
`{archiveBase}/cdx/search/cdx?url={encodedUrl}&output=json&limit=1&closest={timestamp}`
— percent-encoded URL, the item timestamp as `closest`, and NO
`filter=statuscode:200` parameter. -/
theorem cdx_request_format (ctx : ACtx) (ad : String) (fs : FS) (url : String)
    (isImage : Bool) (h0 : url ≠ "") (hts : ctx.itemTimestamp ≠ "")
    (habsent : fsLookup fs (ad ++ "/" ++ localFilenameOf ctx.md5hex ctx.itemTimestamp
      ctx.itemOriginalUrl url isImage) = none)
    (hthrow : ctx.assetNet (waybackUrlOf ctx.itemTimestamp ctx.itemOriginalUrl url
      isImage) = none) :
    ((downloadAsset ctx ad fs url isImage).reqs).get? 1 =
      some ("http://web.archive.org/cdx/search/cdx?url=" ++
        encodeURIComponent (cdxOriginalUrl (cleanUrlOf url)
          (canonicalAbsUrl ctx.itemOriginalUrl url)) ++
        "&output=json&limit=1&closest=" ++ ctx.itemTimestamp) := by
  unfold downloadAsset
  rw [if_neg h0]
  simp only [habsent]
  unfold fetchAndStore
  simp only [fetchWayback_thrown ctx.assetNet ctx.itemTimestamp _ hthrow 3]
  simp only [Option.getD_none]
  rw [if_pos (by simp [respFailedOrEmpty] : respFailedOrEmpty none = true), if_pos hts]
  rcases hcx : ctx.cdxNet (cdxUrlOf (cdxOriginalUrl (cleanUrlOf url)
      (canonicalAbsUrl ctx.itemOriginalUrl url)) ctx.itemTimestamp) with _ | p
  · simp only [hcx, writeResult_reqs]
    rfl
  · rcases p with ⟨st, rows⟩
    simp only [hcx]
    by_cases hst : st = 200 ∧ rows.length > 1
    · rw [if_pos hst]
      rcases hfw2 : fetchWayback ctx.assetNet ctx.itemTimestamp
          ("http://web.archive.org/web/" ++ ((((rows.get? 1).getD []).get? 1).getD "") ++
            "id_/" ++ cdxOriginalUrl (cleanUrlOf url) (canonicalAbsUrl ctx.itemOriginalUrl url)) 3
        with ⟨r2, log2⟩
      simp only [hfw2, writeResult_reqs]
      rfl
    · rw [if_neg hst]
      simp only [writeResult_reqs]
      rfl

/-- Witness for `cdx_request_format` at a concrete lookup. -/
theorem cdx_request_format_witness :
    ((downloadAsset offCtx "ad" [] "http://other.org/y.css" false).reqs).get? 1 =
      some ("http://web.archive.org/cdx/search/cdx?url=" ++
        encodeURIComponent (cdxOriginalUrl (cleanUrlOf "http://other.org/y.css")
          (canonicalAbsUrl "http://site.org/foo/bar.html" "http://other.org/y.css")) ++
        "&output=json&limit=1&closest=" ++ "20050504120000") :=
  cdx_request_format offCtx "ad" [] "http://other.org/y.css" false
    (by decide) (by decide) rfl rfl

/-- C3 (counterexample). An image-kind resolution whose fetched snapshot
is a status-200 HTML page does NOT fail: `downloadAsset` performs no
content-type check, saves the HTML body as the image file and returns the
local filename. -/
theorem image_snapshot_html_is_saved :
    (downloadAsset htmlCtx "./data/msbn/assets" [] "pic.gif" true).link =
      some (localFilenameOf md5Std "20050504120000"
        "http://site.org/foo/bar.html" "pic.gif" true) ∧
    fsLookup (downloadAsset htmlCtx "./data/msbn/assets" [] "pic.gif" true).fs
      ("./data/msbn/assets/" ++ localFilenameOf md5Std "20050504120000"
        "http://site.org/foo/bar.html" "pic.gif" true) = some "<html>404</html>" := by
  refine ⟨by decide, by decide⟩

/-- C4 (counterexample). On a cache hit the store does NOT return the
existing filename: it returns the `../../assets/`-prefixed relative link
to it. -/
theorem store_cache_hit_returns_relative_link :
    (downloadAsset offCtx "ad"
      [("ad/" ++ localFilenameOf md5Std "20050504120000"
          "http://site.org/foo/bar.html" "style.css" false, "X")]
      "style.css" false).link =
      some ("../../assets/" ++ localFilenameOf md5Std "20050504120000"
        "http://site.org/foo/bar.html" "style.css" false) ∧
    (downloadAsset offCtx "ad"
      [("ad/" ++ localFilenameOf md5Std "20050504120000"
          "http://site.org/foo/bar.html" "style.css" false, "X")]
      "style.css" false).link ≠
      some (localFilenameOf md5Std "20050504120000"
        "http://site.org/foo/bar.html" "style.css" false) := by
  refine ⟨by decide, by decide⟩

/-- C7 (counterexample). Duplicate occurrences of the same raw reference
string DO trigger additional resolutions and fetches: a document with the
same `img` source twice yields two collected sites with equal raw strings,
two `downloadAsset` resolutions, and four network requests (two archive
fetch attempts and two CDX lookups). -/
theorem duplicate_raw_refs_resolved_twice :
    (collectAssets dupDoc).map Site.url = ["a.gif", "a.gif"] ∧
    ((processAssets offCtx "ad" [] (collectAssets dupDoc)).1).length = 2 ∧
    ((processAssets offCtx "ad" [] (collectAssets dupDoc)).2.2).length = 4 := by
  refine ⟨by decide, by decide, by decide⟩

/-- C8 (counterexample). The closest-snapshot request the fallback issues
carries no `filter=statuscode:200` parameter: the address built by the
code differs from the claimed bit-exact format. -/
theorem cdx_request_lacks_filter :
    ((downloadAsset offCtx "ad" [] "http://other.org/y.css" false).reqs).get? 1 =
      some ("http://web.archive.org/cdx/search/cdx?url=" ++
        encodeURIComponent "http://other.org/y.css" ++
        "&output=json&limit=1&closest=20050504120000") ∧
    ((downloadAsset offCtx "ad" [] "http://other.org/y.css" false).reqs).get? 1 ≠
      some ("http://web.archive.org/cdx/search/cdx?url=" ++
        encodeURIComponent "http://other.org/y.css" ++
        "&output=json&limit=1&closest=20050504120000" ++
        "&filter=statuscode:200") := by
  refine ⟨by decide, by decide⟩

/-- C9 (amended). There is no `UnsafePath` rejection; instead, sandbox
safety holds by construction: any asset-store entry a processed item
changes sits at `{dataRoot}/{era}/assets/{name}` where `name` is a single
separator-free path component of at least 33 characters (32 digest hex
characters plus the extension) — nothing is ever written outside the
managed data root. Hypothesis: the digest yields 32 separator-free
characters, as an MD5 hex digest does. -/
theorem writes_stay_inside_data_root (ctx : RCtx) (w : World) (it : Item) (p : String)
    (hmd5 : ∀ s, '/' ∉ (ctx.md5hex s).data ∧ (ctx.md5hex s).data.length = 32)
    (hch : fsLookup (processItem ctx w it).2.1.assets p ≠ fsLookup w.assets p) :
    ∃ n, p = assetsDirOf it ++ "/" ++ n ∧ '/' ∉ n.data ∧ 33 ≤ n.data.length := by
  rcases hd : docsLookup w.docs (targetPathOf it) with _ | d
  · rcases hm : ctx.mainNet it.waybackUrl with _ | doc0
    · rw [processItem_eq_fail ctx w it hd hm] at hch
      exact absurd rfl hch
    · rw [processItem_eq_fetch ctx w it doc0 hd hm] at hch
      exact postProcess_assets_inside ctx it _ _ p hmd5 hch
  · rw [processItem_eq_exists ctx w it d hd] at hch
    exact postProcess_assets_inside ctx it w _ p hmd5 hch

/-- Witness for `writes_stay_inside_data_root`: the concrete first demo
run writes its one asset, and the written path decomposes as required. -/
theorem writes_stay_inside_data_root_witness :
    ∃ n, demoAssetPath = assetsDirOf demoItem ++ "/" ++ n ∧
      '/' ∉ n.data ∧ 33 ≤ n.data.length :=
  writes_stay_inside_data_root demoCtx ⟨[], []⟩ demoItem demoAssetPath
    md5Std_safe (by decide)

/-- C10. During collection, every reference whose raw string begins with
`..` is excluded: (i) no collected site's raw string starts with `..`;
(ii) an element all of whose present reference attributes start with `..`
contributes no collected site at its index; (iii) an element whose index
was not collected is left verbatim by the whole rewrite pass — so local
relative links from a previous rewrite are untouched on re-processing. -/
theorem parent_relative_refs_left_verbatim :
    (∀ (doc : Doc) (s : Site), s ∈ collectAssets doc → strStarts s.url ".." = false) ∧
    (∀ (doc : Doc) (i : Nat) (e : Elem), doc.get? i = some e →
      (∀ su, e.src = some su → strStarts su ".." = true) →
      (∀ hu, e.href = some hu → strStarts hu ".." = true) →
      ∀ s ∈ collectAssets doc, s.idx ≠ i) ∧
    (∀ (ctx : ACtx) (ad : String) (fs : FS) (doc : Doc) (i : Nat),
      (∀ s ∈ collectAssets doc, s.idx ≠ i) →
      ((processHtmlDoc ctx ad fs doc).1).get? i = doc.get? i) := by
  refine ⟨?_, ?_, ?_⟩
  · intro doc s hs
    exact refGuard_no_parent (mem_collectAssets hs).1
  · intro doc i e hi hsrc hhref s hs heq
    obtain ⟨hg, e2, hi2, hcase⟩ := mem_collectAssets hs
    rw [heq, hi] at hi2
    obtain rfl := Option.some.inj hi2
    have hfalse : strStarts s.url ".." = false := refGuard_no_parent hg
    rcases hcase with ⟨_, hattr⟩ | ⟨_, hattr⟩ | ⟨_, hattr⟩
    · rw [hsrc s.url hattr] at hfalse
      exact Bool.noConfusion hfalse
    · rw [hhref s.url hattr] at hfalse
      exact Bool.noConfusion hfalse
    · rw [hsrc s.url hattr] at hfalse
      exact Bool.noConfusion hfalse
  · intro ctx ad fs doc i h
    rw [processHtmlDoc_eq]
    refine applyRewrites_get?_other _ doc i ?_
    intro x hx
    refine h x.1 ?_
    have hmap : x.1 ∈ ((processAssets ctx ad fs (collectAssets doc)).1).map Prod.fst :=
      List.mem_map_of_mem Prod.fst hx
    rw [processAssets_sites] at hmap
    exact hmap

/-- A document whose one reference is a relative link produced by a
previous rewrite. -/
def c10Doc : Doc := [{ tag := Tag.img, src := some "../../assets/a.gif" }]

/-- Witness for `parent_relative_refs_left_verbatim`: the already-rewritten
reference is left verbatim. -/
theorem parent_relative_refs_left_verbatim_witness :
    ((processHtmlDoc offCtx "ad" [] c10Doc).1).get? 0 = c10Doc.get? 0 :=
  parent_relative_refs_left_verbatim.2.2 offCtx "ad" [] c10Doc 0
    (parent_relative_refs_left_verbatim.2.1 c10Doc 0
      ⟨Tag.img, some "../../assets/a.gif", none, none, none⟩ rfl
      (fun su h => by cases h; decide)
      (fun hu h => Option.noConfusion h))

/-- C7 (amended). Within a single document's rewrite, phase 2 performs
exactly one resolution per collected reference site, in collection order —
one per occurrence, not one per distinct raw string: the outcome list
pairs the collected sites one-for-one. -/
theorem one_resolution_per_site (ctx : ACtx) (ad : String) (fs : FS) (doc : Doc) :
    ((processAssets ctx ad fs (collectAssets doc)).1).map Prod.fst = collectAssets doc ∧
    ((processAssets ctx ad fs (collectAssets doc)).1).length =
      (collectAssets doc).length := by
  refine ⟨processAssets_sites ctx ad (collectAssets doc) fs, ?_⟩
  have h := congrArg List.length (processAssets_sites ctx ad (collectAssets doc) fs)
  simpa using h

/-- C6. Graceful degradation and failure isolation: (part 1) a fetched
HTML document with three image references of which the first fails
resolution and the other two resolve is rewritten with exactly the two
resolvable references replaced by their returned local links, the
unresolvable one left verbatim — and the item is still marked
`downloaded`; (part 2) the run processes every `discovered`/`failed`
item — each ends `downloaded` or `failed` on its own, and one item's
failure never aborts the batch or the run. -/
theorem graceful_degradation :
    (∀ (ctx : RCtx) (w : World) (it : Item) (r1 r2 r3 l2 l3 : String),
      strEnds (targetPathOf it) ".html" = true →
      docsLookup w.docs (targetPathOf it) = none →
      ctx.mainNet it.waybackUrl =
        some [{ tag := Tag.img, src := some r1 }, { tag := Tag.img, src := some r2 },
              { tag := Tag.img, src := some r3 }] →
      refGuard r1 = true → refGuard r2 = true → refGuard r3 = true →
      (downloadAsset (mkACtx ctx it) (assetsDirOf it) w.assets r1 true).link = none →
      (downloadAsset (mkACtx ctx it) (assetsDirOf it)
        (downloadAsset (mkACtx ctx it) (assetsDirOf it) w.assets r1 true).fs
        r2 true).link = some l2 →
      l2 ≠ "" →
      (downloadAsset (mkACtx ctx it) (assetsDirOf it)
        (downloadAsset (mkACtx ctx it) (assetsDirOf it)
          (downloadAsset (mkACtx ctx it) (assetsDirOf it) w.assets r1 true).fs
          r2 true).fs r3 true).link = some l3 →
      l3 ≠ "" →
      (processItem ctx w it).1.status = Status.downloaded ∧
      docsLookup (processItem ctx w it).2.1.docs (targetPathOf it) =
        some [{ tag := Tag.img, src := some r1 }, { tag := Tag.img, src := some l2 },
              { tag := Tag.img, src := some l3 }]) ∧
    (∀ (ctx : RCtx) (w : World) (items : List Item),
      ((runDownloadModel ctx w items).1).length = items.length ∧
      ∀ (k : Nat) (it : Item), items.get? k = some it →
        (it.status = Status.discovered ∨ it.status = Status.failed) →
        ∃ it2, ((runDownloadModel ctx w items).1).get? k = some it2 ∧
          (it2.status = Status.downloaded ∨ it2.status = Status.failed)) := by
  constructor
  · intro ctx w it r1 r2 r3 l2 l3 hhtml hd hm hg1 hg2 hg3 hda1 hda2 hl2 hda3 hl3
    rw [processItem_eq_fetch ctx w it _ hd hm]
    refine ⟨rfl, ?_⟩
    rw [postProcess_eq_html ctx it _ _ hhtml _ (docsLookup_docsWrite_self _ _ _)]
    simp only [docsLookup_docsWrite_self, processHtmlDoc_eq]
    have hcol : collectAssets
        [{ tag := Tag.img, src := some r1 }, { tag := Tag.img, src := some r2 },
         { tag := Tag.img, src := some r3 }] =
        [⟨0, r1, true, true⟩, ⟨1, r2, true, true⟩, ⟨2, r3, true, true⟩] := by
      simp [collectAssets, collectImgs, collectLinks, collectScripts,
        List.enum, List.enumFrom, hg1, hg2, hg3]
    have hrs : (processAssets (mkACtx ctx it) (assetsDirOf it) w.assets
        (collectAssets
          [{ tag := Tag.img, src := some r1 }, { tag := Tag.img, src := some r2 },
           { tag := Tag.img, src := some r3 }])).1 =
        [(⟨0, r1, true, true⟩, none), (⟨1, r2, true, true⟩, some l2),
         (⟨2, r3, true, true⟩, some l3)] := by
      rw [hcol, processAssets_cons, processAssets_cons, processAssets_cons]
      simp only [hda1, hda2, hda3]
      simp [processAssets]
    rw [hrs]
    simp [applyRewrites, hl2, hl3, setAttr, List.set, List.getD, List.get?]
  · intro ctx w items
    exact ⟨runDownloadModel_length ctx items w, fun k it hk hst =>
      runDownloadModel_get ctx items w k it hk hst⟩

/-- A concrete item and context for the graceful-degradation scenario. -/
def c6Item : Item where
  era := "msbn"
  year := "2005"
  category := "uncategorized"
  filename := "page.html"
  originalUrl := "http://site.org/foo/page.html"
  waybackUrl := "http://web.archive.org/web/20050504120000id_/http://site.org/foo/page.html"
  timestamp := "20050504120000"
  status := Status.discovered

/-- A context in which `bad.gif` cannot be resolved while `good1.gif` and
`good2.gif` can. -/
def c6Ctx : RCtx where
  md5hex := md5Std
  assetNet := fun u =>
    if strContains u "good1.gif" then some ⟨200, none, "image/gif", "A"⟩
    else if strContains u "good2.gif" then some ⟨200, none, "image/gif", "B"⟩
    else none
  cdxNet := fun _ => none
  mainNet := fun u =>
    if u = c6Item.waybackUrl then
      some [{ tag := Tag.img, src := some "bad.gif" },
            { tag := Tag.img, src := some "good1.gif" },
            { tag := Tag.img, src := some "good2.gif" }]
    else none

/-- Witness for `graceful_degradation` at the concrete scenario. -/
theorem graceful_degradation_witness :
    (processItem c6Ctx ⟨[], []⟩ c6Item).1.status = Status.downloaded ∧
    docsLookup (processItem c6Ctx ⟨[], []⟩ c6Item).2.1.docs (targetPathOf c6Item) =
      some [{ tag := Tag.img, src := some "bad.gif" },
            { tag := Tag.img,
              src := some (localFilenameOf md5Std c6Item.timestamp
                c6Item.originalUrl "good1.gif" true) },
            { tag := Tag.img,
              src := some (localFilenameOf md5Std c6Item.timestamp
                c6Item.originalUrl "good2.gif" true) }] :=
  graceful_degradation.1 c6Ctx ⟨[], []⟩ c6Item "bad.gif" "good1.gif" "good2.gif"
    (localFilenameOf md5Std c6Item.timestamp c6Item.originalUrl "good1.gif" true)
    (localFilenameOf md5Std c6Item.timestamp c6Item.originalUrl "good2.gif" true)
    (by decide) rfl rfl (by decide) (by decide) (by decide)
    (by decide) (by decide) (by decide) (by decide) (by decide)

/-- C9 (counterexample). A crafted root-relative traversal reference is
NOT rejected — there is no `UnsafePath` check: the reference is resolved,
fetched and its bytes are written (to the hashed destination inside the
asset directory). -/
theorem traversal_ref_not_rejected :
    (downloadAsset cssCtx "./data/msbn/assets" [] "/../../secret.css" false).link =
      some (localFilenameOf md5Std "20050504120000"
        "http://site.org/foo/bar.html" "/../../secret.css" false) ∧
    (downloadAsset cssCtx "./data/msbn/assets" [] "/../../secret.css" false).fs ≠ [] ∧
    fsLookup
      (downloadAsset cssCtx "./data/msbn/assets" [] "/../../secret.css" false).fs
      ("./data/msbn/assets/" ++ localFilenameOf md5Std "20050504120000"
        "http://site.org/foo/bar.html" "/../../secret.css" false) = some "body{}" := by
  refine ⟨by decide, by decide, by decide⟩

end Usaw
